import Mathlib

/-!
Shallow embedding of `update_etf_data.py` (repository `cristianopris/invest`)
and verification of the frozen claims about it.

Conventions of the embedding:
* document text is `List Char` (called `Text` below);
* Python dicts are association lists with first-match lookup and
  overwrite-in-place insertion, which models CPython's insertion-ordered dicts;
* machine floats are modelled by `ℚ`; `round(x, n)` is rounding to the nearest
  multiple of `10^-n` (ties are immaterial for the claims checked here);
* a fallible Python computation is `Except PyErr _`; an uncaught exception is
  `.error _`;
* `re.sub(pat, repl, s)` for the patterns used by the script (a literal opening
  marker followed by a lazy scan to the first closing marker, and the two
  date-annotation patterns) is modelled by the generic leftmost scanner
  `reSub` over a match-at-position function.
-/

set_option maxRecDepth 10000

namespace UpdateEtf

abbrev Text := List Char

def tx (s : String) : Text := s.data

/-- First index at which `pat` occurs (fully) in `s`. -/
def findFirst (pat : Text) : Text → Option Nat
  | [] => if pat = [] then some 0 else none
  | c :: rest =>
    if pat.isPrefixOf (c :: rest) then some 0
    else (findFirst pat rest).map (· + 1)

/-- Fuelled worker for the leftmost, non-overlapping replace-all scanner.
`matchAt s` returns the length of a match starting at the head of `s`, if any.
Matched spans are replaced by `repl`; scanning resumes after the span
(replacement text is not rescanned), as `re.sub` / `str.replace` do. -/
def subGo (matchAt : Text → Option Nat) (repl : Text) : Nat → Text → Text
  | 0, s => s
  | _ + 1, [] => []
  | fuel + 1, c :: rest =>
    match matchAt (c :: rest) with
    | some n => repl ++ subGo matchAt repl fuel ((c :: rest).drop n)
    | none => c :: subGo matchAt repl fuel rest

def reSub (matchAt : Text → Option Nat) (repl : Text) (s : Text) : Text :=
  subGo matchAt repl s.length s

/-- Matcher for a fixed literal pattern (Python `str.replace`). -/
def litMatchAt (pat : Text) (s : Text) : Option Nat :=
  if pat ≠ [] ∧ pat.isPrefixOf s then some pat.length else none

/-- Python `s.replace(pat, repl)`: leftmost, non-overlapping. -/
def pyReplace (pat repl s : Text) : Text :=
  reSub (litMatchAt pat) repl s

/-- A matcher only ever consumes at least one character. -/
def PosMatch (matchAt : Text → Option Nat) : Prop :=
  ∀ s n, matchAt s = some n → 1 ≤ n

/-- `A ++ M ++ B` decomposes a string into a (unique) match `M` for `matchAt`
with no match starting inside `A` or inside `B`. -/
def SubOk (matchAt : Text → Option Nat) (A M B : Text) : Prop :=
  (∀ i < A.length, matchAt ((A ++ M ++ B).drop i) = none)
  ∧ matchAt (M ++ B) = some M.length
  ∧ (∀ i < B.length, matchAt (B.drop i) = none)
  ∧ M ≠ []

instance (matchAt : Text → Option Nat) (A M B : Text)
    [DecidablePred fun n => matchAt ((A ++ M ++ B).drop n) = none]
    [DecidablePred fun n => matchAt (B.drop n) = none] :
    Decidable (SubOk matchAt A M B) := by
  unfold SubOk; infer_instance

-- ── Percent-change calculator (`pct_change`, lines 88–100) ───────────────────
-- A price series is a list of (date, close) pairs, dates in days.

/-- Round-to-nearest (ties up) on ℚ, i.e. `⌊x + 1/2⌋`, written over the
numerator and denominator so that it is kernel-computable
(see `roundQ_eq_round` below). -/
def roundQ (x : ℚ) : ℤ := Int.fdiv (2 * x.num + (x.den : ℤ)) (2 * (x.den : ℤ))

def round1 (x : ℚ) : ℚ := (roundQ (x * 10) : ℚ) / 10

def round2 (x : ℚ) : ℚ := (roundQ (x * 100) : ℚ) / 100

/--
```
def pct_change(series, days):
    if series.empty: return None
    end_price   = float(series.iloc[-1])
    cutoff_date = series.index[-1] - timedelta(days=days)
    window      = series[series.index >= cutoff_date]
    if window.empty: return None
    start_price = float(window.iloc[0])
    if start_price == 0: return None
    return round((end_price / start_price - 1) * 100, 1)
```
-/
def pct_change (series : List (ℤ × ℚ)) (days : ℤ) : Option ℚ :=
  match series.getLast? with
  | none => none
  | some lastP =>
    let window := series.filter (fun p => decide (lastP.1 - days ≤ p.1))
    match window.head? with
    | none => none
    | some startP =>
      if startP.2 = 0 then none
      else some (round1 ((lastP.2 / startP.2 - 1) * 100))

/-- `cutoff date = last observation's date minus the window` (0 if empty). -/
def cutoffOf (series : List (ℤ × ℚ)) (days : ℤ) : ℤ :=
  match series.getLast? with
  | some p => p.1 - days
  | none => 0

/-- The sub-series of observations dated on or after the cutoff. -/
def windowOf (series : List (ℤ × ℚ)) (days : ℤ) : List (ℤ × ℚ) :=
  series.filter (fun p => decide (cutoffOf series days ≤ p.1))

/-- Dates are strictly ascending (the spec's input contract for a series). -/
def AscDates (series : List (ℤ × ℚ)) : Prop :=
  series.Pairwise (fun a b => a.1 < b.1)

/-- `p` is the earliest observation of `series` dated on or after the cutoff
(the spec's "start price" observation). -/
def IsStartObs (series : List (ℤ × ℚ)) (days : ℤ) (p : ℤ × ℚ) : Prop :=
  p ∈ series ∧ cutoffOf series days ≤ p.1
    ∧ ∀ q ∈ series, cutoffOf series days ≤ q.1 → p.1 ≤ q.1

instance (series : List (ℤ × ℚ)) : Decidable (AscDates series) := by
  unfold AscDates; infer_instance

instance (series : List (ℤ × ℚ)) (days : ℤ) (p : ℤ × ℚ) :
    Decidable (IsStartObs series days p) := by
  unfold IsStartObs; infer_instance

-- ── Python value model for `r.json()` payloads ───────────────────────────────

/-- Uncaught Python exception kinds relevant here. -/
inductive PyErr where
  | typeErr
  | valueErr
  | attrErr
deriving DecidableEq, Repr

/-- A JSON-decoded Python value. -/
inductive JVal where
  | null
  | jbool (b : Bool)
  | num (q : ℚ)
  | str (s : String)
  | arr (xs : List JVal)
  | obj (fs : List (String × JVal))

/-- First-match association-list lookup (Python dict lookup). -/
def alistGet {α : Type} (k : String) : List (String × α) → Option α
  | [] => none
  | (k', v) :: rest => if k' = k then some v else alistGet k rest

/-- Overwrite-in-place / append-at-end insertion (Python `d[k] = v`). -/
def alistPut {α : Type} (k : String) (v : α) : List (String × α) → List (String × α)
  | [] => [(k, v)]
  | (k', v') :: rest =>
    if k' = k then (k', v) :: rest else (k', v') :: alistPut k v rest

/-- `fields.get(k)` on an object's fields, with Python's `None` default. -/
def objGetD (fs : List (String × JVal)) (k : String) : JVal :=
  (alistGet k fs).getD .null

/-- Python truthiness of a JSON value. -/
def truthy : JVal → Bool
  | .null => false
  | .jbool b => b
  | .num q => decide (q ≠ 0)
  | .str s => !s.isEmpty
  | .arr xs => !xs.isEmpty
  | .obj fs => !fs.isEmpty

/-- Python `a or b` (on already-evaluated operands). -/
def pyOr (a b : JVal) : JVal := if truthy a then a else b

/-- `v.get(k)`: raises `AttributeError` unless `v` is a dict. -/
def jGet (v : JVal) (k : String) : Except PyErr JVal :=
  match v with
  | .obj fs => .ok (objGetD fs k)
  | _ => .error .attrErr

def stripText (s : Text) : Text :=
  ((s.dropWhile Char.isWhitespace).reverse.dropWhile Char.isWhitespace).reverse

/-- `v.strip()`: raises `AttributeError` unless `v` is a string. -/
def pyStrip (v : JVal) : Except PyErr Text :=
  match v with
  | .str s => .ok (stripText s.data)
  | _ => .error .attrErr

def digitsToNat (ds : Text) : ℕ :=
  ds.foldl (fun a c => a * 10 + (c.toNat - 48)) 0

/-- `float(s)` on a string: optional sign, digits with an optional decimal
point, at least one digit (the decimal core of CPython's float parser;
exponent forms are not needed by any claim). -/
def parsePyFloat (s : Text) : Option ℚ :=
  let t := stripText s
  let (sign, t) : ℚ × Text :=
    match t with
    | '-' :: r => (-1, r)
    | '+' :: r => (1, r)
    | r => (1, r)
  let ip := t.takeWhile Char.isDigit
  let rest := t.drop ip.length
  match rest with
  | [] => if ip = [] then none else some (sign * digitsToNat ip)
  | '.' :: r =>
    let fp := r.takeWhile Char.isDigit
    if r.drop fp.length = [] ∧ ip ++ fp ≠ [] then
      some (sign * (digitsToNat ip + (digitsToNat fp : ℚ) / 10 ^ fp.length))
    else none
  | _ => none

/-- Python `float(v)`. -/
def pyFloat (v : JVal) : Except PyErr ℚ :=
  match v with
  | .num q => .ok q
  | .jbool b => .ok (if b then 1 else 0)
  | .str s =>
    match parsePyFloat s.data with
    | some q => .ok q
    | none => .error .valueErr
  | _ => .error .typeErr

-- ── Holdings fetch (`fetch_holdings_api`, lines 119–161) ─────────────────────

structure Holding where
  ticker : Text
  name : Text
  weight : ℚ
deriving DecidableEq, Repr

def lowerText (s : Text) : Text := s.map Char.toLower

def containsSub (pat s : Text) : Bool := (findFirst pat s).isSome

mutual

/-- Python `repr` of a decoded JSON value (as nested inside containers).
Numeric spellings are approximated; the script only ever asks whether the
text contains `"weight"`, which no numeral can. -/
def pyRepr : JVal → Text
  | .null => tx "None"
  | .jbool b => if b then tx "True" else tx "False"
  | .num q => if q.den = 1 then (toString q.num).data else (toString q).data
  | .str s => '\x27' :: s.data ++ ['\x27']
  | .arr xs => '[' :: pyReprList xs ++ [']']
  | .obj fs => '\x7b' :: pyReprFields fs ++ ['\x7d']

def pyReprList : List JVal → Text
  | [] => []
  | [x] => pyRepr x
  | x :: y :: rest => pyRepr x ++ ',' :: ' ' :: pyReprList (y :: rest)

def pyReprFields : List (String × JVal) → Text
  | [] => []
  | [kv] => '\x27' :: kv.1.data ++ ('\x27' :: ':' :: ' ' :: pyRepr kv.2)
  | kv :: kv' :: rest =>
    '\x27' :: kv.1.data ++ ('\x27' :: ':' :: ' ' :: pyRepr kv.2)
      ++ ',' :: ' ' :: pyReprFields (kv' :: rest)

end

/-- Python `str(v)` (top level: a string prints without quotes). -/
def pyStr : JVal → Text
  | .str s => s.data
  | v => pyRepr v

/-- Lines 136–140: scan the payload's fields, in order, for a non-empty list
whose first element mentions "weight". -/
def scanNested : List (String × JVal) → Option JVal
  | [] => none
  | (_, v) :: rest =>
    match v with
    | .arr (x :: xs) =>
      if containsSub (tx "weight") (lowerText (pyStr x)) then some (.arr (x :: xs))
      else scanNested rest
    | _ => scanNested rest

/-- Lines 134–140: `raw = data.get("topHoldings") or data.get("holdings") or []`
followed by the nested-structure scan.  `data.get` raises if the decoded
payload is not a dict. -/
def selectRaw (data : JVal) : Except PyErr JVal := do
  let t ← jGet data "topHoldings"
  let h ← jGet data "holdings"
  let raw0 := pyOr t (pyOr h (.arr []))
  if truthy raw0 then
    return raw0
  else
    match data with
    | .obj fs => return (scanNested fs).getD raw0
    | _ => return raw0

/-- `raw[:top_n]` as an iterable: slicing a list or a string works (string
iteration yields 1-character strings); other types are not subscriptable. -/
def jSlice (v : JVal) (n : Nat) : Except PyErr (List JVal) :=
  match v with
  | .arr xs => .ok (xs.take n)
  | .str s => .ok ((s.data.take n).map fun c => .str (String.mk [c]))
  | _ => .error .typeErr

/-- Lines 148–154: extract one holding from one payload item.  `item.get`
raises on non-dict items; `.strip()` raises on non-string truthy fields;
`float` raises on unparsable weight fields.  Holdings with non-positive
weight are dropped. -/
def parseHoldingItem (item : JVal) : Except PyErr (Option Holding) := do
  let tv ← jGet item "ticker"
  let sv ← jGet item "symbol"
  let iv ← jGet item "isin"
  let ticker ← pyStrip (pyOr tv (pyOr sv (pyOr iv (.str ""))))
  let nv ← jGet item "name"
  let dv ← jGet item "description"
  let name ← pyStrip (pyOr nv (pyOr dv (.str "")))
  let wv ← jGet item "weight"
  let pv ← jGet item "percentage"
  let weight ← pyFloat (pyOr wv (pyOr pv (.num 0)))
  if 0 < weight then
    return some ⟨ticker, name, round2 weight⟩
  else
    return none

def parseHoldingsLoop : List JVal → Except PyErr (List Holding)
  | [] => .ok []
  | item :: rest => do
    let h ← parseHoldingItem item
    let hs ← parseHoldingsLoop rest
    return (match h with | some x => x :: hs | none => hs)

/-- `fetch_holdings_api` after the HTTP phase.  `resp` is the outcome of the
guarded request/JSON-decode block (lines 126–132): `.error` means any
exception there, which the function converts to `None`.  `htmlTier` is the
result the page-scrape tier (`fetch_holdings_html`) would produce; the model
returns it exactly when the source falls back to that tier (line 161). -/
def fetch_holdings_api (resp : Except Unit JVal) (htmlTier : Option (List Holding)) :
    Except PyErr (Option (List Holding)) :=
  match resp with
  | .error _ => .ok none
  | .ok data => do
    let raw ← selectRaw data
    if truthy raw then do
      let items ← jSlice raw 15
      let hs ← parseHoldingsLoop items
      if hs.isEmpty then return htmlTier else return (some hs)
    else
      return none

-- ── ETF returns fetch (`fetch_etf_returns_api`, lines 218–272) ───────────────

def LABEL_MAP_API : List (String × String) :=
  [("1m", "1M"), ("1M", "1M"),
   ("3m", "3M"), ("3M", "3M"),
   ("6m", "6M"), ("6M", "6M"),
   ("1y", "1Y"), ("1Y", "1Y"),
   ("3y", "3Y"), ("3Y", "3Y"),
   ("5y", "5Y"), ("5Y", "5Y")]

def LABEL_MAP_HTML : List (String × String) :=
  [("1 month", "1M"), ("1m", "1M"),
   ("3 months", "3M"), ("3m", "3M"),
   ("6 months", "6M"), ("6m", "6M"),
   ("1 year", "1Y"), ("1y", "1Y"),
   ("3 years", "3Y"), ("3y", "3Y"),
   ("5 years", "5Y"), ("5y", "5Y")]

/-- `LABEL_MAP.get(v)`: string keys look up; other hashable values miss;
unhashable values (lists, dicts) raise `TypeError`. -/
def labelGet (v : JVal) : Except PyErr (Option String) :=
  match v with
  | .str s => .ok (alistGet s LABEL_MAP_API)
  | .arr _ => .error .typeErr
  | .obj _ => .error .typeErr
  | _ => .ok none

abbrev RetDict := List (String × ℚ)

/-- One entry of the `isinstance(perf, dict)` branch (lines 247–253): unmapped
or `None` entries are skipped; `float` failures are caught
(`except (TypeError, ValueError): pass`). -/
def perfEntryAcc (acc : RetDict) (mapped : Option String) (v : JVal) : RetDict :=
  match mapped with
  | none => acc
  | some m =>
    match v with
    | .null => acc
    | v =>
      match pyFloat v with
      | .ok q => alistPut m (round1 (q * 100)) acc
      | .error _ => acc

/-- The `isinstance(perf, dict)` branch loop. -/
def procPerfDict (acc : RetDict) : List (String × JVal) → RetDict
  | [] => acc
  | (k, v) :: rest =>
    procPerfDict (perfEntryAcc acc (alistGet k LABEL_MAP_API) v) rest

/-- The `isinstance(perf, list)` branch (lines 257–263): `item.get` on a
non-dict item raises `AttributeError`, and an unhashable period label raises
`TypeError`; neither is caught by the inner `except (TypeError, ValueError)`,
which only guards the numeric conversion. -/
def procPerfList (acc : RetDict) : List JVal → Except PyErr RetDict
  | [] => .ok acc
  | item :: rest =>
    match item with
    | .obj fs => do
      let mapped ← labelGet (pyOr (objGetD fs "period") (pyOr (objGetD fs "label") (.str "")))
      let acc' :=
        match mapped with
        | none => acc
        | some m =>
          match pyFloat (pyOr (objGetD fs "value") (pyOr (objGetD fs "return") (.num 0))) with
          | .ok q => alistPut m (round1 (q * 100)) acc
          | .error _ => acc
      procPerfList acc' rest
    | _ => .error .attrErr

def RAW_KEYS : List String := ["performance", "returns", "historicPerformance", "totalReturn"]

def etfLoop (data : JVal) (acc : RetDict) : List String → Except PyErr RetDict
  | [] => .ok acc
  | k :: rest => do
    let perf ← jGet data k
    match perf with
    | .obj fs =>
      if (procPerfDict acc fs).isEmpty then etfLoop data (procPerfDict acc fs) rest
      else .ok (procPerfDict acc fs)
    | .arr xs => do
      let acc' ← procPerfList acc xs
      if acc'.isEmpty then etfLoop data acc' rest else .ok acc'
    | _ => etfLoop data acc rest

/-- `fetch_etf_returns_api` after the HTTP phase; `.error` on `resp` models any
exception in the guarded request/decode block (caught, yielding `{}`), and
`htmlTier` is what the HTML-scrape tier would return (line 272). -/
def fetch_etf_returns_api (resp : Except Unit JVal) (htmlTier : RetDict) :
    Except PyErr RetDict :=
  match resp with
  | .error _ => .ok []
  | .ok data => do
    let rets ← etfLoop data [] RAW_KEYS
    if rets.isEmpty then return htmlTier else return rets

-- ── Well-formedness conditions under which the tiers cannot raise ────────────

def strOrFalsy (v : JVal) : Bool :=
  match v with
  | .str _ => true
  | v => !truthy v

def numOrFalsy (v : JVal) : Bool :=
  match v with
  | .num _ => true
  | .jbool _ => true
  | v => !truthy v

/-- A payload item the holdings parser handles without raising. -/
def itemOK (item : JVal) : Bool :=
  match item with
  | .obj fs =>
    strOrFalsy (objGetD fs "ticker") && strOrFalsy (objGetD fs "symbol")
      && strOrFalsy (objGetD fs "isin") && strOrFalsy (objGetD fs "name")
      && strOrFalsy (objGetD fs "description")
      && numOrFalsy (objGetD fs "weight") && numOrFalsy (objGetD fs "percentage")
  | _ => false

def holdingsPayloadOK (data : JVal) : Bool :=
  match data with
  | .obj _ =>
    match selectRaw data with
    | .ok (.arr xs) => (xs.take 15).all itemOK
    | .ok v => !truthy v
    | .error _ => false
  | _ => false

/-- A performance-list item the returns parser handles without raising. -/
def retItemOK (item : JVal) : Bool :=
  match item with
  | .obj fs =>
    match pyOr (objGetD fs "period") (pyOr (objGetD fs "label") (.str "")) with
    | .arr _ => false
    | .obj _ => false
    | _ => true
  | _ => false

def returnsPayloadOK (data : JVal) : Bool :=
  match data with
  | .obj fs =>
    RAW_KEYS.all fun k =>
      match objGetD fs k with
      | .arr xs => xs.all retItemOK
      | _ => true
  | _ => false

-- ── Batch stock returns (`fetch_stock_returns`, lines 344–398) ───────────────

def PERIOD_DAYS : List (String × ℤ) :=
  [("1M", 31), ("3M", 92), ("6M", 183), ("1Y", 365), ("3Y", 365 * 3), ("5Y", 365 * 5)]

/-- `t.replace("BRK_B", "BRK-B")` (line 352). -/
def yfName (t : String) : String :=
  String.mk (pyReplace (tx "BRK_B") (tx "BRK-B") t.data)

/-- Per-ticker acquisition outcome: when the batch download succeeded, the
per-ticker column extraction either yields a series or raises (`none`);
when the batch download itself failed, the individual download is used. -/
def seriesFor (batch : Option (String → Option (List (ℤ × ℚ))))
    (indiv : String → Option (List (ℤ × ℚ))) (yft : String) :
    Option (List (ℤ × ℚ)) :=
  match batch with
  | some f => f yft
  | none => indiv yft

/-- The per-ticker body of the loop: any exception inside the `try` block
(extraction failure, or the explicit `raise ValueError` on an empty series)
is caught and recorded as `None` for every canonical period. -/
def stockRets (seriesOpt : Option (List (ℤ × ℚ))) : List (String × Option ℚ) :=
  match seriesOpt with
  | none => PERIOD_DAYS.map fun p => (p.1, none)
  | some [] => PERIOD_DAYS.map fun p => (p.1, none)
  | some s => PERIOD_DAYS.map fun p => (p.1, pct_change s p.2)

def fsrLoop (batch : Option (String → Option (List (ℤ × ℚ))))
    (indiv : String → Option (List (ℤ × ℚ)))
    (acc : List (String × List (String × Option ℚ))) :
    List String → List (String × List (String × Option ℚ))
  | [] => acc
  | t :: rest =>
    fsrLoop batch indiv (alistPut t (stockRets (seriesFor batch indiv (yfName t))) acc) rest

def fetch_stock_returns (tickers : List String)
    (batch : Option (String → Option (List (ℤ × ℚ))))
    (indiv : String → Option (List (ℤ × ℚ))) :
    List (String × List (String × Option ℚ)) :=
  fsrLoop batch indiv [] tickers

-- ── JS formatters (`js_holdings` etc., lines 403–442) ────────────────────────

def ETF_KEYS : List String := ["XUTC", "SP20", "EQQQ", "WTAI", "CSPX", "VWCE"]

def PERIODS : List String := ["1M", "3M", "6M", "1Y", "3Y", "5Y"]

def padLeft (c : Char) (w : Nat) (s : Text) : Text :=
  List.replicate (w - s.length) c ++ s

/-- Python `f"{q:width.precf}"` for the rationals produced by `round(_, prec)`:
the scaled value `round(q·10^prec)` is computed over the numerator and
denominator (see `fmtF_scale_eq_round` below), then printed with `prec`
digits after the point, left-padded with spaces to `width`. -/
def fmtF (width prec : Nat) (q : ℚ) : Text :=
  let m : ℤ := Int.fdiv (2 * q.num * 10 ^ prec + (q.den : ℤ)) (2 * (q.den : ℤ))
  let a : ℕ := m.natAbs
  let core : Text :=
    (if m < 0 then ['-'] else []) ++ (toString (a / 10 ^ prec)).data
      ++ '.' :: padLeft '0' prec (toString (a % 10 ^ prec)).data
  padLeft ' ' width core

/-- `s.replace('"', '\\"')` — the only escaping the serializer performs. -/
def escQuote (s : Text) : Text := pyReplace (tx "\"") (tx "\\\"") s

/-- One serialized holding line:
`f'    {{ ticker:"{t}", name:"{n}", weight:{w:5.2f} }},'`. -/
def holdLine (h : Holding) : Text :=
  tx "    \x7b ticker:\"" ++ escQuote h.ticker ++ tx "\", name:\""
    ++ escQuote h.name ++ tx "\", weight:" ++ fmtF 5 2 h.weight ++ tx " \x7d,"

def js_holdings (d : List (String × List Holding)) : Text :=
  List.intercalate (tx "\n")
    ([tx "const RAW_HOLDINGS = \x7b"]
      ++ ETF_KEYS.flatMap (fun etf =>
          [tx ("  " ++ etf ++ ": [")]
            ++ ((alistGet etf d).getD []).map holdLine
            ++ [tx "  ],"])
      ++ [tx "\x7d;"])

def etfRetPart (rets : RetDict) (p : String) : Text :=
  match alistGet p rets with
  | none => tx ("\"" ++ p ++ "\":  null ")
  | some v => tx ("\"" ++ p ++ "\": ") ++ fmtF 5 1 v

def js_etf_returns (d : List (String × RetDict)) : Text :=
  List.intercalate (tx "\n")
    ([tx "const ETF_RETURNS = \x7b"]
      ++ ETF_KEYS.map (fun etf =>
          tx ("  " ++ etf ++ ": \x7b ")
            ++ List.intercalate (tx ", ")
                (PERIODS.map (etfRetPart ((alistGet etf d).getD [])))
            ++ tx " \x7d,")
      ++ [tx "\x7d;"])

def pyIsAlnum (s : Text) : Bool := !s.isEmpty && s.all Char.isAlphanum

/-- `key = f'"{ticker}"' if ("." in ticker or not ticker.replace("_", "").isalnum()) else ticker`. -/
def jsKeyOf (ticker : String) : Text :=
  if ticker.data.contains '.' || !pyIsAlnum (ticker.data.filter (· ≠ '_')) then
    '"' :: ticker.data ++ ['"']
  else ticker.data

def stockRetPart (rets : List (String × Option ℚ)) (p : String) : Text :=
  match (alistGet p rets).join with
  | none => tx ("\"" ++ p ++ "\":   null")
  | some v => tx ("\"" ++ p ++ "\": ") ++ fmtF 7 1 v

/-- Note: unlike the other two serializers, this one iterates
`returns_by_ticker.items()` — i.e. dict insertion order. -/
def js_holding_returns (d : List (String × List (String × Option ℚ))) : Text :=
  List.intercalate (tx "\n")
    ([tx "const HOLDING_RETURNS = \x7b"]
      ++ d.map (fun kv =>
          tx "  " ++ jsKeyOf kv.1 ++ tx ":  \x7b "
            ++ List.intercalate (tx ", ") (PERIODS.map (stockRetPart kv.2))
            ++ tx " \x7d,")
      ++ [tx "\x7d;"])

-- ── Re-parsing a serialized holding line (for the escaping claim) ────────────

def parseLit (lit s : Text) : Option Text :=
  if lit.isPrefixOf s then some (s.drop lit.length) else none

/-- Read a double-quoted JS string literal body (after its opening quote):
backslash escapes the next character, a raw newline is malformed, the first
unescaped quote closes the literal.  The Bool is the "previous character was
an unconsumed backslash" state. -/
def parseJSStrSt : Bool → Text → Option (Text × Text)
  | _, [] => none
  | true, c :: rest => (parseJSStrSt false rest).map fun p => (c :: p.1, p.2)
  | false, c :: rest =>
    if c = '\\' then parseJSStrSt true rest
    else if c = '"' then some ([], rest)
    else if c = '\n' then none
    else (parseJSStrSt false rest).map fun p => (c :: p.1, p.2)

def parseJSStr : Text → Option (Text × Text) := parseJSStrSt false

/-- Recover the ticker and name fields (and the residual tail) from a
serialized holding line. -/
def parseHoldLine (s : Text) : Option (Text × Text × Text) := do
  let r1 ← parseLit (tx "    \x7b ticker:\"") s
  let (t, r2) ← parseJSStr r1
  let r3 ← parseLit (tx ", name:\"") r2
  let (n, r4) ← parseJSStr r3
  let r5 ← parseLit (tx ", weight:") r4
  some (t, n, r5)

-- ── HTML patcher (`patch_html`, lines 447–495) ───────────────────────────────

def openH : Text := tx "const RAW_HOLDINGS = \x7b"
def openE : Text := tx "const ETF_RETURNS = \x7b"
def openS : Text := tx "const HOLDING_RETURNS = \x7b"
def closeB : Text := tx "\x7d;"

/-- Matcher for `const NAME = \x7b.*?\x7d;` (DOTALL, lazy) at the head of `s`:
the literal opening marker, then everything up to the first closing `"};"`. -/
def blockMatchAt (openM : Text) (s : Text) : Option Nat :=
  if openM.isPrefixOf s then
    (findFirst closeB (s.drop openM.length)).map
      fun k => openM.length + k + closeB.length
  else none

def isWordChar (c : Char) : Bool := c.isAlphanum || c = '_'

/-- Matcher for `LIT\w+ \d+, \d\x7b4\x7d` (optionally followed by a literal dot)
at the head of `s`.  The maximal-munch reading coincides with the regex since
none of `\w`, `\d` match the delimiter that follows them. -/
def dateTail (wLen dLen : Nat) (withDot : Bool) (r2 : Text) : Option Nat :=
  match r2.drop dLen with
  | ',' :: ' ' :: r3 =>
    if (r3.take 4).length = 4 ∧ (r3.take 4).all Char.isDigit then
      if withDot then
        match r3.drop 4 with
        | '.' :: _ => some (wLen + 1 + dLen + 2 + 4 + 1)
        | _ => none
      else
        some (wLen + 1 + dLen + 2 + 4)
    else none
  | _ => none

def dateMid (wLen : Nat) (withDot : Bool) : Text → Option Nat
  | ' ' :: r2 =>
    if (r2.takeWhile Char.isDigit).isEmpty then none
    else dateTail wLen (r2.takeWhile Char.isDigit).length withDot r2
  | _ => none

def dateMatchAt (lit : Text) (withDot : Bool) (s : Text) : Option Nat :=
  if lit.isPrefixOf s then
    if ((s.drop lit.length).takeWhile isWordChar).isEmpty then none
    else
      match dateMid ((s.drop lit.length).takeWhile isWordChar).length withDot
          ((s.drop lit.length).drop ((s.drop lit.length).takeWhile isWordChar).length) with
      | some n => some (lit.length + n)
      | none => none
  else none

def litD1 : Text := tx "EMBEDDED DATA — compiled "
def litD2 : Text := tx "Data as of "

/--
`patch_html` with the replacement blocks rendered from the given snapshot.
Each provided, truthy block rewrites its region(s); the two date annotations
are rewritten unconditionally.  (`re.sub`'s processing of escape sequences in
the replacement template is modelled as literal insertion, which coincides
with CPython whenever the replacement contains no backslash followed by an
ASCII letter — guaranteed by the backslash-free hypotheses used below.)
-/
def patch_html (html : Text) (newHoldings : Option (List (String × List Holding)))
    (newEtfRets : Option (List (String × RetDict)))
    (newStockRets : Option (List (String × List (String × Option ℚ))))
    (dateStr : Text) : Text :=
  let h1 := match newHoldings with
    | some d => if d.isEmpty then html else reSub (blockMatchAt openH) (js_holdings d) html
    | none => html
  let h2 := match newEtfRets with
    | some d => if d.isEmpty then h1 else reSub (blockMatchAt openE) (js_etf_returns d) h1
    | none => h1
  let h3 := match newStockRets with
    | some d => if d.isEmpty then h2 else reSub (blockMatchAt openS) (js_holding_returns d) h2
    | none => h2
  let h4 := reSub (dateMatchAt litD1 false) (litD1 ++ dateStr) h3
  reSub (dateMatchAt litD2 true) (litD2 ++ dateStr ++ tx ".") h4

-- ════════════════════════════ Theorems ══════════════════════════════════════

-- ── Scanner lemmas ───────────────────────────────────────────────────────────

theorem subGo_nil (m : Text → Option Nat) (r : Text) : ∀ f, subGo m r f [] = []
  | 0 => rfl
  | _ + 1 => rfl

theorem subGo_congr (m : Text → Option Nat) (r : Text) (hpos : PosMatch m) :
    ∀ (N : Nat) (s : Text) (f g : Nat),
      s.length ≤ f → s.length ≤ g → s.length ≤ N →
      subGo m r f s = subGo m r g s := by
  intro N
  induction N with
  | zero =>
    intro s f g _ _ hN
    have hs : s = [] := List.eq_nil_of_length_eq_zero (Nat.le_zero.mp hN)
    subst hs
    rw [subGo_nil, subGo_nil]
  | succ N ih =>
    intro s f g hf hg hN
    match s with
    | [] => rw [subGo_nil, subGo_nil]
    | c :: rest =>
      have hlen : (c :: rest).length = rest.length + 1 := rfl
      obtain ⟨f', rfl⟩ : ∃ f', f = f' + 1 := ⟨f - 1, by simp at hf; omega⟩
      obtain ⟨g', rfl⟩ : ∃ g', g = g' + 1 := ⟨g - 1, by simp at hg; omega⟩
      simp only [List.length_cons, Nat.add_le_add_iff_right] at hf hg hN
      cases hm : m (c :: rest) with
      | some n =>
        have hn := hpos _ _ hm
        simp only [subGo, hm]
        congr 1
        exact ih _ f' g' (by simp; omega) (by simp; omega) (by simp; omega)
      | none =>
        simp only [subGo, hm]
        congr 1
        exact ih rest f' g' hf hg hN

theorem reSub_nil (m : Text → Option Nat) (r : Text) : reSub m r [] = [] := rfl

theorem reSub_cons_none (m : Text → Option Nat) (r : Text) (c : Char) (rest : Text)
    (hm : m (c :: rest) = none) :
    reSub m r (c :: rest) = c :: reSub m r rest := by
  unfold reSub
  simp only [List.length_cons, subGo, hm]

theorem reSub_cons_some (m : Text → Option Nat) (r : Text) (c : Char) (rest : Text) (n : Nat)
    (hpos : PosMatch m) (hm : m (c :: rest) = some n) :
    reSub m r (c :: rest) = r ++ reSub m r ((c :: rest).drop n) := by
  have hn := hpos _ _ hm
  unfold reSub
  simp only [List.length_cons, subGo, hm]
  congr 1
  exact subGo_congr m r hpos rest.length _ rest.length _ (by simp; omega) (by simp) (by simp; omega)

theorem reSub_no_match (m : Text → Option Nat) (r : Text) :
    ∀ s : Text, (∀ i < s.length, m (s.drop i) = none) → reSub m r s = s
  | [], _ => rfl
  | c :: rest, h => by
    rw [reSub_cons_none m r c rest (by simpa using h 0 (by simp))]
    rw [reSub_no_match m r rest fun i hi => by
      simpa using h (i + 1) (by simpa using Nat.succ_lt_succ hi)]

theorem reSub_single (m : Text → Option Nat) (repl : Text) (hpos : PosMatch m) :
    ∀ A M B : Text, SubOk m A M B → reSub m repl (A ++ M ++ B) = A ++ repl ++ B
  | [], M, B, h => by
    obtain ⟨_, hM, hB, hMne⟩ := h
    obtain ⟨cM, Mrest, rfl⟩ : ∃ c r, M = c :: r := by
      cases M with
      | nil => exact absurd rfl hMne
      | cons c r => exact ⟨c, r, rfl⟩
    have hcons : ([] : Text) ++ (cM :: Mrest) ++ B = cM :: (Mrest ++ B) := by simp
    rw [hcons]
    have hm : m (cM :: (Mrest ++ B)) = some (cM :: Mrest).length := by
      rw [← List.cons_append]; exact hM
    rw [reSub_cons_some m repl _ _ _ hpos hm]
    have hdrop : (cM :: (Mrest ++ B)).drop (cM :: Mrest).length = B := by
      rw [← List.cons_append]; exact List.drop_left _ _
    rw [hdrop, reSub_no_match m repl B hB]
    simp
  | a :: A', M, B, h => by
    obtain ⟨hA, hM, hB, hMne⟩ := h
    have hcons : (a :: A') ++ M ++ B = a :: (A' ++ M ++ B) := by simp
    rw [hcons]
    rw [reSub_cons_none m repl _ _ (by simpa using hA 0 (by simp))]
    rw [reSub_single m repl hpos A' M B
      ⟨fun i hi => by simpa using hA (i + 1) (by simpa using Nat.succ_lt_succ hi),
       hM, hB, hMne⟩]
    simp

theorem posMatch_block (openM : Text) (h : openM ≠ []) : PosMatch (blockMatchAt openM) := by
  intro s n hm
  unfold blockMatchAt at hm
  split at hm
  · cases hk : findFirst closeB (s.drop openM.length) with
    | none => rw [hk] at hm; cases hm
    | some k =>
      rw [hk] at hm
      simp only [Option.map] at hm
      injection hm with hm
      have : 0 < openM.length := List.length_pos.mpr h
      omega
  · cases hm

theorem dateTail_pos (w d : Nat) (b : Bool) (r : Text) (n : Nat)
    (hm : dateTail w d b r = some n) : 1 ≤ n := by
  unfold dateTail at hm
  repeat' split at hm
  all_goals injection hm
  all_goals omega

theorem dateMid_pos (w : Nat) (b : Bool) (r : Text) (n : Nat)
    (hm : dateMid w b r = some n) : 1 ≤ n := by
  unfold dateMid at hm
  repeat' split at hm
  all_goals first
    | injection hm
    | exact dateTail_pos _ _ _ _ _ hm

theorem posMatch_date (lit : Text) (b : Bool) : PosMatch (dateMatchAt lit b) := by
  intro s n hm
  unfold dateMatchAt at hm
  repeat' split at hm
  all_goals injection hm
  all_goals
    rename_i nmid hmid hinj
    have := dateMid_pos _ _ _ _ hmid
    omega

theorem posMatch_lit (pat : Text) : PosMatch (litMatchAt pat) := by
  intro s n hm
  unfold litMatchAt at hm
  split at hm
  · next hcond =>
    simp only [Option.some_inj] at hm
    have : 0 < pat.length := List.length_pos.mpr hcond.1
    omega
  · cases hm

-- ── Rounding bridges ─────────────────────────────────────────────────────────

theorem roundQ_eq_round (x : ℚ) : roundQ x = round x := by
  have h0 : ((x.den : ℚ)) ≠ 0 := by exact_mod_cast x.den_nz
  have hd2 : ((2 * x.den : ℕ) : ℚ) ≠ 0 := by
    exact_mod_cast Nat.mul_ne_zero two_ne_zero x.den_nz
  have hnum : (x.num : ℚ) = x * (x.den : ℚ) := (div_eq_iff h0).mp (Rat.num_div_den x)
  rw [round_eq]
  have hx : x + 1 / 2 = ((2 * x.num + (x.den : ℤ) : ℤ) : ℚ) / ((2 * x.den : ℕ) : ℚ) := by
    rw [eq_div_iff hd2]
    push_cast
    rw [hnum]
    ring
  rw [hx, Rat.floor_intCast_div_natCast]
  unfold roundQ
  rw [Int.fdiv_eq_ediv _ (by positivity)]
  congr 1

theorem fmtF_scale_eq_round (prec : Nat) (q : ℚ) :
    Int.fdiv (2 * q.num * 10 ^ prec + (q.den : ℤ)) (2 * (q.den : ℤ))
      = round (q * (10 : ℚ) ^ prec) := by
  have h0 : ((q.den : ℚ)) ≠ 0 := by exact_mod_cast q.den_nz
  have hd2 : ((2 * q.den : ℕ) : ℚ) ≠ 0 := by
    exact_mod_cast Nat.mul_ne_zero two_ne_zero q.den_nz
  have hnum : (q.num : ℚ) = q * (q.den : ℚ) := (div_eq_iff h0).mp (Rat.num_div_den q)
  rw [round_eq]
  have hx : q * (10 : ℚ) ^ prec + 1 / 2
      = ((2 * q.num * 10 ^ prec + (q.den : ℤ) : ℤ) : ℚ) / ((2 * q.den : ℕ) : ℚ) := by
    rw [eq_div_iff hd2]
    push_cast
    rw [hnum]
    ring
  rw [hx, Rat.floor_intCast_div_natCast]
  rw [Int.fdiv_eq_ediv _ (by positivity)]
  congr 1

-- ── Percent-change lemmas ────────────────────────────────────────────────────

theorem dates_inj {s : List (ℤ × ℚ)} (h : AscDates s) :
    ∀ p ∈ s, ∀ q ∈ s, p.1 = q.1 → p = q := by
  induction s with
  | nil => simp
  | cons a t ih =>
    rw [AscDates, List.pairwise_cons] at h
    intro p hp q hq hpq
    rcases List.mem_cons.mp hp with rfl | hp' <;> rcases List.mem_cons.mp hq with rfl | hq'
    · rfl
    · have := h.1 q hq'; exact absurd hpq (by omega)
    · have := h.1 p hp'; exact absurd hpq (by omega)
    · exact ih h.2 p hp' q hq' hpq

theorem window_head_isStart {s : List (ℤ × ℚ)} {days : ℤ} {st : ℤ × ℚ} {tail : List (ℤ × ℚ)}
    (hasc : AscDates s) (hw : windowOf s days = st :: tail) :
    IsStartObs s days st := by
  have hmem : st ∈ windowOf s days := by rw [hw]; exact List.mem_cons_self st tail
  have hst := List.mem_filter.mp hmem
  refine ⟨hst.1, by simpa using hst.2, ?_⟩
  intro q hq hcq
  have hqw : q ∈ windowOf s days := List.mem_filter.mpr ⟨hq, by simpa using hcq⟩
  rw [hw] at hqw
  rcases List.mem_cons.mp hqw with rfl | hqt
  · exact le_refl _
  · have hpw : (windowOf s days).Pairwise (fun a b => a.1 < b.1) := hasc.filter _
    rw [hw, List.pairwise_cons] at hpw
    exact le_of_lt (hpw.1 q hqt)

theorem isStart_eq_window_head {s : List (ℤ × ℚ)} {days : ℤ} {p st : ℤ × ℚ}
    {tail : List (ℤ × ℚ)} (hasc : AscDates s) (hw : windowOf s days = st :: tail)
    (hp : IsStartObs s days p) : p = st := by
  have hstStart := window_head_isStart hasc hw
  have hpw : p ∈ windowOf s days := List.mem_filter.mpr ⟨hp.1, by simpa using hp.2.1⟩
  have h1 : p.1 ≤ st.1 := hp.2.2 st hstStart.1 hstStart.2.1
  have h2 : st.1 ≤ p.1 := hstStart.2.2 p hp.1 hp.2.1
  exact dates_inj hasc p hp.1 st hstStart.1 (le_antisymm h1 h2)

theorem pct_change_eq_match (s : List (ℤ × ℚ)) (days : ℤ) (lastP : ℤ × ℚ)
    (hlast : s.getLast? = some lastP) :
    pct_change s days =
      (match (windowOf s days).head? with
       | none => none
       | some startP =>
         if startP.2 = 0 then none
         else some (round1 ((lastP.2 / startP.2 - 1) * 100))) := by
  unfold pct_change windowOf cutoffOf
  rw [hlast]

/-- Shared core for both `pct_change` claims. -/
theorem pct_core (s : List (ℤ × ℚ)) (days : ℤ) (hasc : AscDates s) :
    (pct_change s days = none ↔
      s = [] ∨ (∀ p ∈ s, p.1 < cutoffOf s days)
        ∨ (∃ p, IsStartObs s days p ∧ p.2 = 0))
    ∧ (∀ lastP p, s.getLast? = some lastP → IsStartObs s days p → p.2 ≠ 0 →
        pct_change s days = some (round1 ((lastP.2 / p.2 - 1) * 100))) := by
  cases hlast : s.getLast? with
  | none =>
    have hs : s = [] := List.getLast?_eq_none_iff.mp hlast
    subst hs
    constructor
    · simp [pct_change]
    · intro lastP p h
      cases h
  | some lastP =>
    have hmatch := pct_change_eq_match s days lastP hlast
    have hsne : s ≠ [] := by
      intro h; subst h; simp at hlast
    cases hw : windowOf s days with
    | nil =>
      have hall : ∀ p ∈ s, p.1 < cutoffOf s days := by
        intro p hp
        have := List.filter_eq_nil_iff.mp hw p hp
        simp at this
        omega
      constructor
      · rw [hmatch, hw]
        simp only [List.head?_nil]
        exact ⟨fun _ => Or.inr (Or.inl hall), fun _ => trivial⟩
      · intro lastP' p _ hp _
        have : p ∈ windowOf s days := List.mem_filter.mpr ⟨hp.1, by simpa using hp.2.1⟩
        rw [hw] at this
        cases this
    | cons st tail =>
      have hstart := window_head_isStart hasc hw
      constructor
      · rw [hmatch, hw]
        simp only [List.head?_cons]
        constructor
        · intro hnone
          by_cases h0 : st.2 = 0
          · exact Or.inr (Or.inr ⟨st, hstart, h0⟩)
          · rw [if_neg h0] at hnone; cases hnone
        · intro hdisj
          rcases hdisj with rfl | hall | ⟨p, hp, hp0⟩
          · exact absurd hlast (by simp)
          · exact absurd (hall st hstart.1) (by have := hstart.2.1; omega)
          · have : p = st := isStart_eq_window_head hasc hw hp
            subst this
            rw [if_pos hp0]
      · intro lastP' p hlast' hp hp0
        have heq : lastP' = lastP := by
          injection hlast' with heq
          exact heq.symm
        subst heq
        have : p = st := isStart_eq_window_head hasc hw hp
        subst this
        rw [hmatch, hw]
        simp only [List.head?_cons]
        rw [if_neg hp0]

-- ── Association-list lemmas ──────────────────────────────────────────────────

theorem alistGet_mem {α : Type} {k : String} {v : α} :
    ∀ {l : List (String × α)}, alistGet k l = some v → (k, v) ∈ l
  | [], h => by cases h
  | (k', v') :: rest, h => by
    by_cases hk : k' = k
    · subst hk
      rw [alistGet, if_pos rfl] at h
      injection h with h
      subst h
      exact List.mem_cons_self _ _
    · rw [alistGet, if_neg hk] at h
      exact List.mem_cons_of_mem _ (alistGet_mem h)

theorem alistGet_isSome_of_key_mem {α : Type} {k : String} :
    ∀ {l : List (String × α)}, k ∈ l.map Prod.fst → (alistGet k l).isSome
  | [], h => by cases h
  | (k', v') :: rest, h => by
    by_cases hk : k' = k
    · subst hk; simp [alistGet]
    · rw [alistGet, if_neg hk]
      have h' : k = k' ∨ k ∈ rest.map Prod.fst := by
        rw [List.map_cons] at h
        exact List.mem_cons.mp h
      rcases h' with h' | h'
      · exact absurd h'.symm hk
      · exact alistGet_isSome_of_key_mem h'

theorem key_mem_of_alistGet_isSome {α : Type} {k : String} :
    ∀ {l : List (String × α)}, (alistGet k l).isSome → k ∈ l.map Prod.fst
  | [], h => by simp [alistGet] at h
  | (k', v') :: rest, h => by
    by_cases hk : k' = k
    · subst hk; simp
    · rw [alistGet, if_neg hk] at h
      simpa using Or.inr (key_mem_of_alistGet_isSome h)

theorem alistGet_put_self {α : Type} (k : String) (v : α) :
    ∀ l : List (String × α), alistGet k (alistPut k v l) = some v
  | [] => by simp [alistPut, alistGet]
  | (k', v') :: rest => by
    by_cases hk : k' = k
    · subst hk; simp [alistPut, alistGet]
    · rw [alistPut, if_neg hk, alistGet, if_neg hk]
      exact alistGet_put_self k v rest

theorem alistGet_put_of_ne {α : Type} {k k' : String} (h : k' ≠ k) (v : α) :
    ∀ l : List (String × α), alistGet k' (alistPut k v l) = alistGet k' l
  | [] => by
    simp only [alistPut, alistGet]
    rw [if_neg (fun x => h x.symm)]
  | (k'', v'') :: rest => by
    by_cases hk : k'' = k
    · subst hk
      rw [alistPut, if_pos rfl, alistGet, alistGet,
        if_neg (fun x => h x.symm), if_neg (fun x => h x.symm)]
    · rw [alistPut, if_neg hk, alistGet, alistGet]
      by_cases hk' : k'' = k'
      · rw [if_pos hk', if_pos hk']
      · rw [if_neg hk', if_neg hk']
        exact alistGet_put_of_ne h v rest

theorem alistPut_keys {α : Type} (k : String) (v : α) :
    ∀ l : List (String × α),
      (alistPut k v l).map Prod.fst
        = if k ∈ l.map Prod.fst then l.map Prod.fst else l.map Prod.fst ++ [k]
  | [] => by simp [alistPut]
  | (k', v') :: rest => by
    by_cases hk : k' = k
    · subst hk
      rw [alistPut, if_pos rfl]
      simp
  /- else -/
    · rw [alistPut, if_neg hk]
      simp only [List.map_cons, alistPut_keys k v rest]
      by_cases hmem : k ∈ rest.map Prod.fst
      · rw [if_pos hmem, if_pos (by simp [hmem])]
      · rw [if_neg hmem, if_neg (by simp [hmem]; exact fun h => hk h.symm)]
        simp

theorem alistPut_nodup {α : Type} (k : String) (v : α) (l : List (String × α))
    (h : (l.map Prod.fst).Nodup) : ((alistPut k v l).map Prod.fst).Nodup := by
  rw [alistPut_keys]
  by_cases hmem : k ∈ l.map Prod.fst
  · rwa [if_pos hmem]
  · rw [if_neg hmem, List.nodup_append]
    refine ⟨h, List.nodup_singleton _, ?_⟩
    intro a ha hb
    rw [List.mem_singleton] at hb
    exact hmem (hb ▸ ha)

-- ── Stock-returns loop lemmas ────────────────────────────────────────────────

theorem fsrLoop_get_of_not_mem (batch : Option (String → Option (List (ℤ × ℚ))))
    (indiv : String → Option (List (ℤ × ℚ))) (t : String) :
    ∀ (ts : List String) (acc : List (String × List (String × Option ℚ))),
      t ∉ ts → alistGet t (fsrLoop batch indiv acc ts) = alistGet t acc
  | [], acc, _ => rfl
  | t0 :: rest, acc, h => by
    rw [fsrLoop]
    rw [fsrLoop_get_of_not_mem batch indiv t rest _ (fun hm => h (List.mem_cons_of_mem _ hm))]
    refine alistGet_put_of_ne (fun he => h ?_) _ acc
    rw [he]
    exact List.mem_cons_self _ _

theorem fsrLoop_get_of_mem (batch : Option (String → Option (List (ℤ × ℚ))))
    (indiv : String → Option (List (ℤ × ℚ))) (t : String) :
    ∀ (ts : List String) (acc : List (String × List (String × Option ℚ))),
      t ∈ ts →
      alistGet t (fsrLoop batch indiv acc ts)
        = some (stockRets (seriesFor batch indiv (yfName t)))
  | [], acc, h => by cases h
  | t0 :: rest, acc, h => by
    rw [fsrLoop]
    by_cases hr : t ∈ rest
    · exact fsrLoop_get_of_mem batch indiv t rest _ hr
    · rcases List.mem_cons.mp h with rfl | h'
      · rw [fsrLoop_get_of_not_mem batch indiv t rest _ hr]
        exact alistGet_put_self _ _ _
      · exact absurd h' hr

theorem fsrLoop_keys_sub (batch : Option (String → Option (List (ℤ × ℚ))))
    (indiv : String → Option (List (ℤ × ℚ))) (t : String) :
    ∀ (ts : List String) (acc : List (String × List (String × Option ℚ))),
      (alistGet t (fsrLoop batch indiv acc ts)).isSome →
      t ∈ ts ∨ (alistGet t acc).isSome
  | [], acc, h => Or.inr h
  | t0 :: rest, acc, h => by
    rw [fsrLoop] at h
    rcases fsrLoop_keys_sub batch indiv t rest _ h with h' | h'
    · exact Or.inl (List.mem_cons_of_mem _ h')
    · by_cases he : t0 = t
      · subst he
        exact Or.inl (List.mem_cons_self _ _)
      · rw [alistGet_put_of_ne (fun x => he x.symm) _ acc] at h'
        exact Or.inr h'

theorem fsrLoop_nodup (batch : Option (String → Option (List (ℤ × ℚ))))
    (indiv : String → Option (List (ℤ × ℚ))) :
    ∀ (ts : List String) (acc : List (String × List (String × Option ℚ))),
      ((acc.map Prod.fst).Nodup) → ((fsrLoop batch indiv acc ts).map Prod.fst).Nodup
  | [], acc, h => h
  | t0 :: rest, acc, h =>
    fsrLoop_nodup batch indiv rest _ (alistPut_nodup _ _ _ h)

-- ════════════════════════════ Claim theorems ════════════════════════════════

/--
**C1.** For every price series (with the strictly ascending dates the spec
requires of series) and every window length in days, `pct_change` returns
explicit-missing (`none`) iff the series is empty, no observation's date is
on or after the cutoff (last date minus the window), or the start price
(value of the earliest observation dated ≥ cutoff) is zero; otherwise it
returns `round((end/start - 1) * 100, 1)` where `end` is the last
observation's value.
-/
theorem pct_change_missing_iff (s : List (ℤ × ℚ)) (days : ℤ) (hasc : AscDates s) :
    (pct_change s days = none ↔
      s = [] ∨ (∀ p ∈ s, p.1 < cutoffOf s days)
        ∨ (∃ p, IsStartObs s days p ∧ p.2 = 0))
    ∧ (∀ lastP p, s.getLast? = some lastP → IsStartObs s days p → p.2 ≠ 0 →
        pct_change s days = some (round1 ((lastP.2 / p.2 - 1) * 100))) :=
  pct_core s days hasc

/-- Witness for C1, on the spec's own numeric example P6:
points (−400, 100), (−200, 150), (0, 200); 1-year window (365 days) gives
round((200/150 − 1)·100, 1) = 33.3 from start observation (−200, 150). -/
theorem pct_change_missing_iff_witness :
    pct_change [((-400 : ℤ), (100 : ℚ)), (-200, 150), (0, 200)] 365 = some (333 / 10) := by
  have h := (pct_change_missing_iff [((-400 : ℤ), (100 : ℚ)), (-200, 150), (0, 200)] 365
    (by decide)).2 (0, 200) (-200, 150) (by decide) (by decide) (by norm_num)
  rw [h]
  norm_num [round1, roundQ_eq_round, round_eq]

/--
**C10.** For every non-empty price series with ascending dates and every
nonnegative window length, the windowed sub-series always contains the last
observation, so the "no observation on/after cutoff" branch of `pct_change`
is unreachable; under these preconditions `pct_change` returns
explicit-missing iff the start price equals zero.
-/
theorem pct_change_window_contains_last (s : List (ℤ × ℚ)) (days : ℤ)
    (hne : s ≠ []) (hasc : AscDates s) (hdays : 0 ≤ days) :
    (∃ lastP, s.getLast? = some lastP ∧ lastP ∈ windowOf s days)
    ∧ windowOf s days ≠ []
    ∧ (pct_change s days = none ↔ ∃ p, IsStartObs s days p ∧ p.2 = 0) := by
  have hlast : s.getLast? = some (s.getLast hne) := List.getLast?_eq_getLast s hne
  have hcut : cutoffOf s days = (s.getLast hne).1 - days := by
    unfold cutoffOf; rw [hlast]
  have hmemw : s.getLast hne ∈ windowOf s days := by
    refine List.mem_filter.mpr ⟨List.getLast_mem hne, ?_⟩
    simp [hcut]
    omega
  refine ⟨⟨s.getLast hne, hlast, hmemw⟩, ?_, ?_⟩
  · intro h
    rw [h] at hmemw
    cases hmemw
  · rw [(pct_core s days hasc).1]
    constructor
    · intro hdisj
      rcases hdisj with rfl | hall | h
      · exact absurd hne (by simp)
      · have := hall _ (List.getLast_mem hne)
        omega
      · exact h
    · exact fun h => Or.inr (Or.inr h)

/-- Witness for C10: a concrete two-point series with a zero start price —
the window is non-empty and the result is missing exactly because the start
price is zero. -/
theorem pct_change_window_contains_last_witness :
    windowOf [((0 : ℤ), (0 : ℚ)), (5, 3)] 10 ≠ []
      ∧ pct_change [((0 : ℤ), (0 : ℚ)), (5, 3)] 10 = none := by
  have h := pct_change_window_contains_last [((0 : ℤ), (0 : ℚ)), (5, 3)] 10
    (by decide) (by decide) (by norm_num)
  refine ⟨h.2.1, ?_⟩
  rw [h.2.2]
  exact ⟨(0, 0), by decide, rfl⟩

def CANON : List String := ["1M", "3M", "6M", "1Y", "3Y", "5Y"]

theorem alist_vals_canon {l : List (String × String)} (h : ∀ kv ∈ l, kv.2 ∈ CANON) :
    ∀ k v, alistGet k l = some v → v ∈ CANON :=
  fun _ _ hg => h _ (alistGet_mem hg)

theorem alistGet_put_isSome {α : Type} {k m : String} {v : α} {l : List (String × α)}
    (h : (alistGet k (alistPut m v l)).isSome) : k = m ∨ (alistGet k l).isSome := by
  by_cases hk : k = m
  · exact Or.inl hk
  · rw [alistGet_put_of_ne hk v l] at h
    exact Or.inr h

theorem perfEntryAcc_keys (acc : RetDict) (mapped : Option String) (v : JVal) (k : String)
    (h : (alistGet k (perfEntryAcc acc mapped v)).isSome) :
    (alistGet k acc).isSome ∨ ∃ m, mapped = some m ∧ k = m := by
  unfold perfEntryAcc at h
  repeat' split at h
  all_goals
    first
    | exact Or.inl h
    | exact (alistGet_put_isSome h).elim
        (fun heq => Or.inr ⟨_, rfl, heq⟩) Or.inl

theorem procPerfDict_keys :
    ∀ (fs : List (String × JVal)) (acc : RetDict) (k : String),
      (alistGet k (procPerfDict acc fs)).isSome →
      (alistGet k acc).isSome ∨ k ∈ CANON
  | [], _, _, h => Or.inl h
  | (k0, v) :: rest, acc, k, h => by
    rw [procPerfDict] at h
    rcases procPerfDict_keys rest _ k h with h' | h'
    · rcases perfEntryAcc_keys _ _ _ _ h' with h'' | ⟨m, hm, rfl⟩
      · exact Or.inl h''
      · exact Or.inr (alist_vals_canon (by decide) k0 k hm)
    · exact Or.inr h'

/--
**C8.** The label normalizer is total: every recognized raw period spelling
maps to exactly one of the six canonical horizons (both the API-side and the
HTML-side `LABEL_MAP` send every one of their keys into `CANON`, and only
keys are mapped); every unrecognized label yields no mapping; and in the
performance-dictionary parse an unrecognized label contributes nothing, so
the accumulated result only ever holds canonical keys.
-/
theorem label_normalizer_total :
    (∀ k v, alistGet k LABEL_MAP_API = some v → v ∈ CANON)
    ∧ (∀ k v, alistGet k LABEL_MAP_HTML = some v → v ∈ CANON)
    ∧ (∀ k, k ∈ LABEL_MAP_API.map Prod.fst → (alistGet k LABEL_MAP_API).isSome)
    ∧ (∀ k, k ∈ LABEL_MAP_HTML.map Prod.fst → (alistGet k LABEL_MAP_HTML).isSome)
    ∧ (∀ k, (alistGet k LABEL_MAP_API).isSome → k ∈ LABEL_MAP_API.map Prod.fst)
    ∧ (∀ k, (alistGet k LABEL_MAP_HTML).isSome → k ∈ LABEL_MAP_HTML.map Prod.fst)
    ∧ (∀ fs k, (alistGet k (procPerfDict [] fs)).isSome → k ∈ CANON) :=
  ⟨alist_vals_canon (by decide),
   alist_vals_canon (by decide),
   fun _ => alistGet_isSome_of_key_mem,
   fun _ => alistGet_isSome_of_key_mem,
   fun _ => key_mem_of_alistGet_isSome,
   fun _ => key_mem_of_alistGet_isSome,
   fun fs k h => (procPerfDict_keys fs [] k h).elim (by simp [alistGet]) id⟩

/-- Witness for C8: the synonyms "1y", "1Y" (API map) and "1 year" (HTML map)
all map to the canonical "1Y", which is canonical; and "7w" is unmapped. -/
theorem label_normalizer_total_witness :
    ("1Y" : String) ∈ CANON
      ∧ alistGet "1y" LABEL_MAP_API = some "1Y"
      ∧ alistGet "1 year" LABEL_MAP_HTML = some "1Y"
      ∧ alistGet "1Y" LABEL_MAP_API = some "1Y"
      ∧ alistGet "7w" LABEL_MAP_API = none
      ∧ ("6M" : String) ∈ CANON :=
  ⟨label_normalizer_total.1 "1y" "1Y" (by decide),
   by decide, by decide, by decide, by decide,
   label_normalizer_total.2.2.2.2.2.2 [("6m", .num 1)] "6M" (by decide)⟩

/--
**C7.** For every list of requested tickers, the batch stock-returns
operation returns a mapping with exactly one entry per requested ticker
(every requested ticker is present, only requested tickers are present, and
keys are not duplicated); each ticker's recorded value is a function of that
ticker's own acquired series only (per-ticker isolation); and a ticker whose
series cannot be obtained or is empty is recorded with explicit-missing for
every one of the six canonical periods.
-/
theorem fetch_stock_returns_isolation (tickers : List String)
    (batch : Option (String → Option (List (ℤ × ℚ))))
    (indiv : String → Option (List (ℤ × ℚ))) :
    (∀ t ∈ tickers,
      alistGet t (fetch_stock_returns tickers batch indiv)
        = some (stockRets (seriesFor batch indiv (yfName t))))
    ∧ (∀ t, (alistGet t (fetch_stock_returns tickers batch indiv)).isSome → t ∈ tickers)
    ∧ ((fetch_stock_returns tickers batch indiv).map Prod.fst).Nodup
    ∧ (∀ t ∈ tickers,
        (seriesFor batch indiv (yfName t) = none
          ∨ seriesFor batch indiv (yfName t) = some []) →
        alistGet t (fetch_stock_returns tickers batch indiv)
          = some (PERIOD_DAYS.map fun p => (p.1, (none : Option ℚ)))) := by
  refine ⟨?_, ?_, ?_, ?_⟩
  · intro t ht
    exact fsrLoop_get_of_mem batch indiv t tickers [] ht
  · intro t h
    rcases fsrLoop_keys_sub batch indiv t tickers [] h with h' | h'
    · exact h'
    · simp [alistGet] at h'
  · exact fsrLoop_nodup batch indiv tickers [] (by simp)
  · intro t ht hser
    rw [fetch_stock_returns, fsrLoop_get_of_mem batch indiv t tickers [] ht]
    rcases hser with h | h <;> rw [h] <;> rfl

/-- Witness for C7: two tickers, the batch download failed, the individual
fallback yields a series only for "X"; "BRK_B" (renamed to "BRK-B" for the
download) is recorded all-missing and "X" is recorded from its own series. -/
theorem fetch_stock_returns_isolation_witness :
    alistGet "BRK_B"
        (fetch_stock_returns ["BRK_B", "X"] none
          (fun t => if t = "X" then some [((0 : ℤ), (1 : ℚ)), (1, 2)] else none))
      = some (PERIOD_DAYS.map fun p => (p.1, (none : Option ℚ))) := by
  have h := (fetch_stock_returns_isolation ["BRK_B", "X"] none
    (fun t => if t = "X" then some [((0 : ℤ), (1 : ℚ)), (1, 2)] else none)).2.2.2
    "BRK_B" (by decide)
  exact h (Or.inl (by decide))

-- ── Exception-boundary lemmas for the fetch tiers ────────────────────────────

theorem except_bind_ok {ε α β : Type} (a : α) (f : α → Except ε β) :
    (Except.ok a >>= f : Except ε β) = f a := rfl

theorem except_bind_err {ε α β : Type} (e : ε) (f : α → Except ε β) :
    (Except.error e >>= f : Except ε β) = .error e := rfl

theorem except_pure {ε α : Type} (a : α) : (pure a : Except ε α) = .ok a := rfl

theorem str_of_truthy_strOrFalsy {a : JVal} (ht : truthy a = true)
    (ha : strOrFalsy a = true) : ∃ s, a = .str s := by
  cases a with
  | str s => exact ⟨s, rfl⟩
  | null => simp_all [strOrFalsy, truthy]
  | jbool b => simp_all [strOrFalsy, truthy]
  | num q => simp_all [strOrFalsy, truthy]
  | arr xs => simp_all [strOrFalsy, truthy]
  | obj fs => simp_all [strOrFalsy, truthy]

theorem pyOr_keeps_str {a b : JVal} (ha : strOrFalsy a = true) (hb : ∃ s, b = .str s) :
    ∃ s, pyOr a b = .str s := by
  unfold pyOr
  by_cases ht : truthy a
  · rw [if_pos ht]
    exact str_of_truthy_strOrFalsy ht ha
  · rw [if_neg ht]
    exact hb

theorem pyFloat_ok_of_truthy_numOrFalsy {a : JVal} (ht : truthy a = true)
    (ha : numOrFalsy a = true) : ∃ q, pyFloat a = .ok q := by
  cases a with
  | num q => exact ⟨q, rfl⟩
  | jbool b => exact ⟨if b then 1 else 0, rfl⟩
  | null => simp_all [numOrFalsy, truthy]
  | str s => simp_all [numOrFalsy, truthy]
  | arr xs => simp_all [numOrFalsy, truthy]
  | obj fs => simp_all [numOrFalsy, truthy]

theorem pyOr_floatable {a b : JVal} (ha : numOrFalsy a = true)
    (hb : ∃ q, pyFloat b = .ok q) : ∃ q, pyFloat (pyOr a b) = .ok q := by
  unfold pyOr
  by_cases ht : truthy a
  · rw [if_pos ht]
    exact pyFloat_ok_of_truthy_numOrFalsy ht ha
  · rw [if_neg ht]
    exact hb

theorem parseHoldingItem_ok {item : JVal} (hOK : itemOK item = true) :
    ∃ r, parseHoldingItem item = .ok r := by
  match item with
  | .obj fs =>
    simp only [itemOK, Bool.and_eq_true] at hOK
    obtain ⟨⟨⟨⟨⟨⟨ht, hsym⟩, hisin⟩, hname⟩, hdesc⟩, hw⟩, hp⟩ := hOK
    obtain ⟨ts, hts⟩ : ∃ s, pyOr (objGetD fs "ticker")
        (pyOr (objGetD fs "symbol") (pyOr (objGetD fs "isin") (.str ""))) = .str s :=
      pyOr_keeps_str ht (pyOr_keeps_str hsym (pyOr_keeps_str hisin ⟨"", rfl⟩))
    obtain ⟨ns, hns⟩ : ∃ s, pyOr (objGetD fs "name")
        (pyOr (objGetD fs "description") (.str "")) = .str s :=
      pyOr_keeps_str hname (pyOr_keeps_str hdesc ⟨"", rfl⟩)
    obtain ⟨q, hq⟩ : ∃ q, pyFloat (pyOr (objGetD fs "weight")
        (pyOr (objGetD fs "percentage") (.num 0))) = .ok q :=
      pyOr_floatable hw (pyOr_floatable hp ⟨0, rfl⟩)
    unfold parseHoldingItem
    simp only [jGet, except_bind_ok, hts, hns, hq, pyStrip]
    by_cases h0 : 0 < q
    · exact ⟨some ⟨stripText ts.data, stripText ns.data, round2 q⟩, by rw [if_pos h0]; rfl⟩
    · exact ⟨none, by rw [if_neg h0]; rfl⟩
  | .null => simp [itemOK] at hOK
  | .jbool b => simp [itemOK] at hOK
  | .num q => simp [itemOK] at hOK
  | .str s => simp [itemOK] at hOK
  | .arr xs => simp [itemOK] at hOK

theorem parseHoldingsLoop_ok :
    ∀ {items : List JVal}, (∀ item ∈ items, itemOK item = true) →
      ∃ hs, parseHoldingsLoop items = .ok hs
  | [], _ => ⟨[], rfl⟩
  | item :: rest, h => by
    obtain ⟨r, hr⟩ := parseHoldingItem_ok (h item (List.mem_cons_self _ _))
    obtain ⟨hs, hhs⟩ := parseHoldingsLoop_ok fun i hi => h i (List.mem_cons_of_mem _ hi)
    unfold parseHoldingsLoop
    rw [hr, except_bind_ok, hhs, except_bind_ok]
    cases r with
    | some x => exact ⟨x :: hs, rfl⟩
    | none => exact ⟨hs, rfl⟩

theorem selectRaw_obj_ok (fs : List (String × JVal)) :
    ∃ raw, selectRaw (.obj fs) = .ok raw := by
  unfold selectRaw
  simp only [jGet, except_bind_ok]
  by_cases ht : truthy (pyOr (objGetD fs "topHoldings")
      (pyOr (objGetD fs "holdings") (.arr [])))
  · rw [if_pos ht]
    exact ⟨_, rfl⟩
  · rw [if_neg ht]
    exact ⟨_, rfl⟩

theorem procPerfList_ok :
    ∀ {xs : List JVal} (acc : RetDict), (∀ i ∈ xs, retItemOK i = true) →
      ∃ r, procPerfList acc xs = .ok r
  | [], acc, _ => ⟨acc, rfl⟩
  | item :: rest, acc, h => by
    have hOK := h item (List.mem_cons_self _ _)
    match item, hOK with
    | .obj fs, hOK =>
      have hlg : ∃ o, labelGet (pyOr (objGetD fs "period")
          (pyOr (objGetD fs "label") (.str ""))) = .ok o := by
        simp only [retItemOK] at hOK
        cases hv : pyOr (objGetD fs "period") (pyOr (objGetD fs "label") (.str "")) with
        | arr ys => rw [hv] at hOK; simp at hOK
        | obj fs2 => rw [hv] at hOK; simp at hOK
        | null => exact ⟨none, rfl⟩
        | jbool b => exact ⟨none, rfl⟩
        | num q => exact ⟨none, rfl⟩
        | str s => exact ⟨alistGet s LABEL_MAP_API, rfl⟩
      obtain ⟨o, ho⟩ := hlg
      simp only [procPerfList]
      rw [ho, except_bind_ok]
      exact procPerfList_ok _ fun i hi => h i (List.mem_cons_of_mem _ hi)
    | .null, hOK => simp [retItemOK] at hOK
    | .jbool b, hOK => simp [retItemOK] at hOK
    | .num q, hOK => simp [retItemOK] at hOK
    | .str s, hOK => simp [retItemOK] at hOK
    | .arr ys, hOK => simp [retItemOK] at hOK

theorem etfLoop_ok (fs : List (String × JVal)) :
    ∀ (acc : RetDict) (keys : List String),
      (∀ k ∈ keys,
        (match objGetD fs k with
         | .arr xs => xs.all retItemOK
         | _ => true) = true) →
      ∃ r, etfLoop (.obj fs) acc keys = .ok r
  | acc, [], _ => ⟨acc, rfl⟩
  | acc, k :: rest, h => by
    have hrest : ∀ k' ∈ rest,
        (match objGetD fs k' with
         | .arr xs => xs.all retItemOK
         | _ => true) = true :=
      fun k' hk' => h k' (List.mem_cons_of_mem _ hk')
    unfold etfLoop
    rw [show jGet (.obj fs) k = .ok (objGetD fs k) from rfl, except_bind_ok]
    split
    · split
      · exact etfLoop_ok fs _ rest hrest
      · exact ⟨_, rfl⟩
    · rename_i xs heq
      have hxs : ∀ i ∈ xs, retItemOK i = true := by
        have hk := h k (List.mem_cons_self _ _)
        rw [heq] at hk
        exact List.all_eq_true.mp hk
      obtain ⟨r, hr⟩ := procPerfList_ok acc hxs
      rw [hr, except_bind_ok]
      split
      · exact etfLoop_ok fs _ rest hrest
      · exact ⟨_, rfl⟩
    · exact etfLoop_ok fs acc rest hrest

/--
**C2 counterexample.** The claim asserts the tiered fetch operations never
raise for any payload, "including payloads whose items carry non-numeric
weight fields".  But item-level parsing sits outside the guarded block: a
holdings payload whose single item has weight `"abc"` makes
`float(item.get("weight") or ...)` raise `ValueError` past the tier
boundary.
-/
theorem fetch_never_raises_counterexample :
    fetch_holdings_api
        (.ok (.obj [("topHoldings", .arr [.obj [("weight", .str "abc")]])])) none
      = .error .valueErr := by
  rfl

/--
**C2 (amended).** Exceptions in the guarded request/JSON-decode phase are
caught and converted into the tier's explicit missing result (`None` for
holdings, `{}` for returns); and for payloads whose selected items are
well-formed — dict items with string-or-falsy text fields and
numeric-or-falsy weight fields for holdings, dict items with a hashable
period label for returns — the two fetch operations return without raising.
(As the counterexample shows, malformed items can raise, so the unconditional
claim fails.)
-/
theorem fetch_error_boundary_amended :
    (∀ (e : Unit) htmlTier, fetch_holdings_api (.error e) htmlTier = .ok none)
    ∧ (∀ (e : Unit) htmlTier, fetch_etf_returns_api (.error e) htmlTier = .ok [])
    ∧ (∀ data htmlTier, holdingsPayloadOK data = true →
        ∃ r, fetch_holdings_api (.ok data) htmlTier = .ok r)
    ∧ (∀ data htmlTier, returnsPayloadOK data = true →
        ∃ r, fetch_etf_returns_api (.ok data) htmlTier = .ok r) := by
  refine ⟨fun _ _ => rfl, fun _ _ => rfl, ?_, ?_⟩
  · intro data htmlTier hOK
    match data with
    | .obj fs =>
      obtain ⟨raw, hsel⟩ := selectRaw_obj_ok fs
      simp only [holdingsPayloadOK, hsel] at hOK
      simp only [fetch_holdings_api, hsel, except_bind_ok]
      by_cases ht : truthy raw = true
      · rw [if_pos ht]
        match raw, hOK, ht with
        | .arr xs, hOK, ht =>
          obtain ⟨hs, hloop⟩ := parseHoldingsLoop_ok (fun i hi => List.all_eq_true.mp hOK i hi)
          rw [show jSlice (.arr xs) 15 = .ok (xs.take 15) from rfl, except_bind_ok, hloop,
            except_bind_ok]
          by_cases he : hs.isEmpty
          · rw [if_pos he]; exact ⟨htmlTier, rfl⟩
          · rw [if_neg he]; exact ⟨some hs, rfl⟩
        | .null, hOK, ht => simp_all [truthy]
        | .jbool b, hOK, ht => simp_all [truthy]
        | .num q, hOK, ht => simp_all [truthy]
        | .str s', hOK, ht => simp_all [truthy]
        | .obj fs', hOK, ht => simp_all [truthy]
      · rw [if_neg ht]
        exact ⟨none, rfl⟩
    | .null => simp [holdingsPayloadOK] at hOK
    | .jbool b => simp [holdingsPayloadOK] at hOK
    | .num q => simp [holdingsPayloadOK] at hOK
    | .str s => simp [holdingsPayloadOK] at hOK
    | .arr xs => simp [holdingsPayloadOK] at hOK
  · intro data htmlTier hOK
    match data with
    | .obj fs =>
      simp only [returnsPayloadOK] at hOK
      obtain ⟨r, hr⟩ : ∃ r, etfLoop (.obj fs) [] RAW_KEYS = .ok r :=
        etfLoop_ok fs [] RAW_KEYS (fun k hk => List.all_eq_true.mp hOK k hk)
      simp only [fetch_etf_returns_api]
      rw [hr, except_bind_ok]
      by_cases he : r.isEmpty
      · rw [if_pos he]; exact ⟨htmlTier, rfl⟩
      · rw [if_neg he]; exact ⟨r, rfl⟩
    | .null => simp [returnsPayloadOK] at hOK
    | .jbool b => simp [returnsPayloadOK] at hOK
    | .num q => simp [returnsPayloadOK] at hOK
    | .str s => simp [returnsPayloadOK] at hOK
    | .arr xs => simp [returnsPayloadOK] at hOK

/-- Witness for the amended C2: a network exception yields the explicit
missing result, and a well-formed payload is processed without raising. -/
theorem fetch_error_boundary_amended_witness :
    fetch_holdings_api (.error ()) none = .ok none
      ∧ fetch_etf_returns_api (.error ()) [] = .ok []
      ∧ (∃ r, fetch_holdings_api
          (.ok (.obj [("topHoldings",
            .arr [.obj [("name", .str "Apple"), ("weight", .num (751 / 100))]])]))
          none = .ok r)
      ∧ (∃ r, fetch_etf_returns_api
          (.ok (.obj [("performance", .obj [("1y", .num (123 / 1000))])])) [] = .ok r) :=
  ⟨fetch_error_boundary_amended.1 () none,
   fetch_error_boundary_amended.2.1 () [],
   fetch_error_boundary_amended.2.2.1 _ none (by decide),
   fetch_error_boundary_amended.2.2.2 _ [] (by decide)⟩

/--
**C3 counterexample.** The claim asserts that when the structured-API tier
ends in an exception, the controller falls through to the page-scrape tier
and records missing only if that tier also yields nothing.  In the code an
exception in the request/decode block returns `None` immediately (line 132):
here the page-scrape tier would have produced a holding, yet the result is
missing, not that holding.
-/
theorem holdings_no_fallthrough_counterexample :
    fetch_holdings_api (.error ()) (some [⟨tx "T", tx "N", 1⟩]) = .ok none
      ∧ (some [(⟨tx "T", tx "N", 1⟩ : Holding)] : Option (List Holding)) ≠ none :=
  ⟨rfl, by simp⟩

/--
**C3 (amended).** The holdings chain reaches the page-scrape tier
(`fetch_holdings_html`, line 161) only when the structured payload contained
a non-empty candidate list whose parsed holdings came out empty; an
exception (line 132) or an empty/absent holdings list in the payload
(line 144) records explicit missing directly, without consulting the
page-scrape tier; and a non-empty parse is returned as the API tier's
result.
-/
theorem holdings_fallthrough_amended :
    (∀ (e : Unit) htmlTier, fetch_holdings_api (.error e) htmlTier = .ok none)
    ∧ (∀ data raw htmlTier, selectRaw data = .ok raw → truthy raw = false →
        fetch_holdings_api (.ok data) htmlTier = .ok none)
    ∧ (∀ data raw items htmlTier, selectRaw data = .ok raw → truthy raw = true →
        jSlice raw 15 = .ok items → parseHoldingsLoop items = .ok [] →
        fetch_holdings_api (.ok data) htmlTier = .ok htmlTier)
    ∧ (∀ data raw items hs htmlTier, selectRaw data = .ok raw → truthy raw = true →
        jSlice raw 15 = .ok items → parseHoldingsLoop items = .ok hs → hs ≠ [] →
        fetch_holdings_api (.ok data) htmlTier = .ok (some hs)) := by
  refine ⟨fun _ _ => rfl, ?_, ?_, ?_⟩
  · intro data raw htmlTier hsel htr
    simp only [fetch_holdings_api, hsel, except_bind_ok]
    rw [if_neg (by simp [htr])]
    rfl
  · intro data raw items htmlTier hsel htr hslice hloop
    simp only [fetch_holdings_api, hsel, except_bind_ok]
    rw [if_pos htr, hslice, except_bind_ok, hloop, except_bind_ok]
    rfl
  · intro data raw items hs htmlTier hsel htr hslice hloop hne
    simp only [fetch_holdings_api, hsel, except_bind_ok]
    rw [if_pos htr, hslice, except_bind_ok, hloop, except_bind_ok]
    rw [if_neg (by simpa [List.isEmpty_iff] using hne)]
    rfl

/-- Witness for the amended C3: a payload whose only item has weight `0`
parses to an empty holdings list, and exactly then the result is whatever
the page-scrape tier produced. -/
theorem holdings_fallthrough_amended_witness :
    fetch_holdings_api (.ok (.obj [("topHoldings", .arr [.obj [("weight", .num 0)]])]))
        (some [⟨tx "T", tx "N", 1⟩])
      = .ok (some [⟨tx "T", tx "N", 1⟩]) :=
  holdings_fallthrough_amended.2.2.1
    (.obj [("topHoldings", .arr [.obj [("weight", .num 0)]])])
    (.arr [.obj [("weight", .num 0)]])
    [.obj [("weight", .num 0)]]
    (some [⟨tx "T", tx "N", 1⟩])
    rfl rfl rfl rfl

-- ── Serializer lemmas (C6, C9) ───────────────────────────────────────────────

/--
**C6 counterexample.** Two snapshots that are equal as mappings but were
built in different insertion orders: the stock-returns serializer
(`js_holding_returns`) iterates `returns_by_ticker.items()` — dict insertion
order — so it produces different bytes for them.
-/
theorem serializer_order_counterexample :
    (∀ k, alistGet k [("A", ([] : List (String × Option ℚ))), ("B", [])]
        = alistGet k [("B", ([] : List (String × Option ℚ))), ("A", [])])
    ∧ js_holding_returns [("A", []), ("B", [])]
        ≠ js_holding_returns [("B", []), ("A", [])] := by
  constructor
  · intro k
    by_cases hA : ("A" : String) = k <;> by_cases hB : ("B" : String) = k <;>
      simp [alistGet, hA, hB]
  · decide

/--
**C6 (amended).** The holdings serializer and the ETF-returns serializer do
iterate instruments in the fixed canonical key order, so snapshots equal as
mappings serialize byte-identically regardless of insertion order; the
stock-returns serializer iterates dict insertion order instead (see the
counterexample), so the claim fails for it.
-/
theorem serializer_canonical_amended (d1 d2 : List (String × List Holding))
    (e1 e2 : List (String × RetDict))
    (hd : ∀ k, alistGet k d1 = alistGet k d2)
    (he : ∀ k, alistGet k e1 = alistGet k e2) :
    js_holdings d1 = js_holdings d2 ∧ js_etf_returns e1 = js_etf_returns e2 := by
  constructor
  · unfold js_holdings
    simp only [hd]
  · unfold js_etf_returns
    simp only [he]

/-- Witness for the amended C6: the same holdings mapping inserted in two
different orders serializes identically via `js_holdings`. -/
theorem serializer_canonical_amended_witness :
    js_holdings [("XUTC", [⟨tx "T", tx "N", 1⟩]), ("SP20", [])]
      = js_holdings [("SP20", []), ("XUTC", [⟨tx "T", tx "N", 1⟩])] := by
  refine (serializer_canonical_amended _ _ [] [] ?_ fun _ => rfl).1
  intro k
  by_cases h1 : ("XUTC" : String) = k <;> by_cases h2 : ("SP20" : String) = k
  · exact absurd (h1.trans h2.symm) (by decide)
  · simp [alistGet, h1, h2]
  · simp [alistGet, h1, h2]
  · simp [alistGet, h1, h2]

theorem pyReplace_quote (s : Text) :
    pyReplace ['"'] ['\\', '"'] s
      = s.flatMap fun c => if c = '"' then ['\\', '"'] else [c] := by
  induction s with
  | nil => rfl
  | cons c rest ih =>
    unfold pyReplace at *
    by_cases hc : c = '"'
    · subst hc
      rw [reSub_cons_some _ _ _ _ 1 (posMatch_lit _)
        (by simp [litMatchAt, List.isPrefixOf])]
      simp only [List.drop_succ_cons, List.drop_zero, ih]
      simp
    · rw [reSub_cons_none _ _ _ _
        (by simp [litMatchAt, List.isPrefixOf, Ne.symm hc])]
      rw [ih]
      simp [hc]

theorem escQuote_eq_flatMap (s : Text) :
    escQuote s = s.flatMap fun c => if c = '"' then ['\\', '"'] else [c] :=
  pyReplace_quote s

theorem parseLit_append (lit r : Text) : parseLit lit (lit ++ r) = some r := by
  unfold parseLit
  rw [if_pos (by
    rw [List.isPrefixOf_iff_prefix]
    exact List.prefix_append lit r)]
  rw [List.drop_left]

theorem option_bind_some {α β : Type} (a : α) (f : α → Option β) :
    (some a >>= f) = f a := rfl

theorem parseJSStrSt_cons_false (c : Char) (rest : Text) :
    parseJSStrSt false (c :: rest)
      = if c = '\\' then parseJSStrSt true rest
        else if c = '"' then some ([], rest)
        else if c = '\n' then none
        else (parseJSStrSt false rest).map fun p => (c :: p.1, p.2) := rfl

theorem parseJSStrSt_cons_true (c : Char) (rest : Text) :
    parseJSStrSt true (c :: rest)
      = (parseJSStrSt false rest).map fun p => (c :: p.1, p.2) := rfl

theorem parseJSStr_escQuote (content rest : Text)
    (hbs : '\\' ∉ content) (hnl : '\n' ∉ content) :
    parseJSStr (escQuote content ++ '"' :: rest) = some (content, rest) := by
  rw [escQuote_eq_flatMap]
  unfold parseJSStr
  induction content with
  | nil =>
    show parseJSStrSt false ('"' :: rest) = some ([], rest)
    rw [parseJSStrSt_cons_false, if_neg (by decide), if_pos rfl]
  | cons c cs ih =>
    have hc_bs : c ≠ '\\' := fun h => hbs (h ▸ List.mem_cons_self _ _)
    have hc_nl : c ≠ '\n' := fun h => hnl (h ▸ List.mem_cons_self _ _)
    have ih' := ih (fun h => hbs (List.mem_cons_of_mem _ h))
      (fun h => hnl (List.mem_cons_of_mem _ h))
    simp only [List.flatMap_cons]
    by_cases hc : c = '"'
    · subst hc
      rw [if_pos rfl]
      show parseJSStrSt false ('\\' :: '"' ::
        (cs.flatMap (fun c => if c = '"' then ['\\', '"'] else [c]) ++ '"' :: rest))
        = some ('"' :: cs, rest)
      rw [parseJSStrSt_cons_false, if_pos rfl, parseJSStrSt_cons_true, ih']
      rfl
    · rw [if_neg hc]
      show parseJSStrSt false (c ::
        (cs.flatMap (fun c => if c = '"' then ['\\', '"'] else [c]) ++ '"' :: rest))
        = some (c :: cs, rest)
      rw [parseJSStrSt_cons_false, if_neg hc_bs, if_neg hc, if_neg hc_nl, ih']
      rfl

/--
**C9 counterexample.** The serializer escapes only double quotes.  A name
consisting of a single backslash serializes to `name:"\",` whose `\"` now
escapes the closing quote: the line no longer parses back (the embedding is
broken).  And a name containing the closing-marker text `"};"` puts that
marker inside the serialized block, so the first occurrence of the closing
marker is no longer the block's final delimiter — data can forge it.
-/
theorem escaping_counterexample :
    parseHoldLine (holdLine ⟨tx "T", ['\\'], 1⟩) = none
      ∧ findFirst closeB (js_holdings [("XUTC", [⟨tx "T", tx "\x7d;", 1⟩])])
          ≠ some ((js_holdings [("XUTC", [⟨tx "T", tx "\x7d;", 1⟩])]).length - 2) := by
  constructor
  · decide
  · decide

/--
**C9 (amended).** The holdings serializer escapes exactly the double quote.
For ticker and name fields containing no backslash and no raw newline, every
serialized holding line parses back to exactly its ticker and name (with the
weight field following), i.e. the embedding stays well-formed — including
fields containing quotes; fields containing backslashes break it (see the
counterexample), as do fields containing the closing-marker text, which can
forge the region delimiter.
-/
theorem holdLine_roundtrip (t n : Text) (w : ℚ)
    (htb : '\\' ∉ t) (htn : '\n' ∉ t) (hnb : '\\' ∉ n) (hnn : '\n' ∉ n) :
    parseHoldLine (holdLine ⟨t, n, w⟩) = some (t, n, fmtF 5 2 w ++ tx " \x7d,") := by
  unfold parseHoldLine holdLine
  rw [show tx "\", name:\"" = '"' :: tx ", name:\"" from rfl,
    show tx "\", weight:" = '"' :: tx ", weight:" from rfl]
  simp only [List.append_assoc, List.cons_append]
  rw [parseLit_append, option_bind_some]
  rw [parseJSStr_escQuote t _ htb htn, option_bind_some]
  rw [parseLit_append, option_bind_some]
  rw [parseJSStr_escQuote n _ hnb hnn, option_bind_some]
  rw [parseLit_append, option_bind_some]

/-- Witness for the amended C9: a name containing a quote round-trips. -/
theorem holdLine_roundtrip_witness :
    parseHoldLine (holdLine ⟨tx "AAPL", tx "App\"le", 751 / 100⟩)
      = some (tx "AAPL", tx "App\"le", fmtF 5 2 (751 / 100) ++ tx " \x7d,") :=
  holdLine_roundtrip (tx "AAPL") (tx "App\"le") (751 / 100)
    (by decide) (by decide) (by decide) (by decide)

-- ── Patcher claims (C4, C5) ──────────────────────────────────────────────────

/-- Boolean check that no match starts in the first `n` positions of `s`
(single linear pass; used to discharge `SubOk` hypotheses by evaluation). -/
def scanNoMatchB (matchAt : Text → Option Nat) : Nat → Text → Bool
  | 0, _ => true
  | _ + 1, [] => true
  | n + 1, c :: rest => (matchAt (c :: rest)).isNone && scanNoMatchB matchAt n rest

theorem scanNoMatchB_spec (matchAt : Text → Option Nat) :
    ∀ (n : Nat) (s : Text), scanNoMatchB matchAt n s = true →
      ∀ i, i < n → i < s.length → matchAt (s.drop i) = none
  | 0, _, _, i, hi, _ => absurd hi (Nat.not_lt_zero i)
  | _ + 1, [], _, _, _, hl => absurd hl (by simp)
  | n + 1, c :: rest, h, i, hi, hl => by
    rw [scanNoMatchB, Bool.and_eq_true] at h
    cases i with
    | zero =>
      simpa using Option.isNone_iff_eq_none.mp h.1
    | succ j =>
      rw [List.drop_succ_cons]
      exact scanNoMatchB_spec matchAt n rest h.2 j (by omega) (by simpa using hl)

theorem subOk_of_scan (matchAt : Text → Option Nat) (A M B : Text)
    (h1 : scanNoMatchB matchAt A.length (A ++ M ++ B) = true)
    (h2 : matchAt (M ++ B) = some M.length)
    (h3 : scanNoMatchB matchAt B.length B = true)
    (h4 : M ≠ []) : SubOk matchAt A M B :=
  ⟨fun i hi => scanNoMatchB_spec matchAt A.length (A ++ M ++ B) h1 i hi
      (by simp only [List.length_append]; omega),
   h2,
   fun i hi => scanNoMatchB_spec matchAt B.length B h3 i hi hi,
   h4⟩

/--
**C5.** For a document of the spec's shape — the three delimited
embedded-data regions `RH`, `RE`, `RS` and the two date annotations `D1`,
`D2`, with each pattern matching only at its own region (the `SubOk`
hypotheses) — patching with an empty or absent holdings block leaves the
holdings region (and every inter-region segment) byte-identical to its
pre-patch state, while only the provided blocks' regions and the two date
annotations change.
-/
theorem patch_frame_noop
    (p0 RH p1 RE p2 RS p3 D1 p4 D2 p5 : Text)
    (hOpt : Option (List (String × List Holding)))
    (ed : List (String × RetDict)) (sd : List (String × List (String × Option ℚ)))
    (dateStr : Text)
    (hH : hOpt = none ∨ ∃ d, hOpt = some d ∧ d.isEmpty = true)
    (hed : ed.isEmpty = false) (hsd : sd.isEmpty = false)
    (S1 : SubOk (blockMatchAt openE) (p0 ++ RH ++ p1) RE
      (p2 ++ RS ++ p3 ++ D1 ++ p4 ++ D2 ++ p5))
    (S2 : SubOk (blockMatchAt openS) (p0 ++ RH ++ p1 ++ js_etf_returns ed ++ p2) RS
      (p3 ++ D1 ++ p4 ++ D2 ++ p5))
    (S3 : SubOk (dateMatchAt litD1 false)
      (p0 ++ RH ++ p1 ++ js_etf_returns ed ++ p2 ++ js_holding_returns sd ++ p3) D1
      (p4 ++ D2 ++ p5))
    (S4 : SubOk (dateMatchAt litD2 true)
      (p0 ++ RH ++ p1 ++ js_etf_returns ed ++ p2 ++ js_holding_returns sd ++ p3
        ++ (litD1 ++ dateStr) ++ p4) D2 p5) :
    patch_html (p0 ++ RH ++ p1 ++ RE ++ p2 ++ RS ++ p3 ++ D1 ++ p4 ++ D2 ++ p5)
        hOpt (some ed) (some sd) dateStr
      = p0 ++ RH ++ p1 ++ js_etf_returns ed ++ p2 ++ js_holding_returns sd ++ p3
          ++ (litD1 ++ dateStr) ++ p4 ++ (litD2 ++ dateStr ++ tx ".") ++ p5 := by
  have e1 : reSub (blockMatchAt openE) (js_etf_returns ed)
      ((p0 ++ RH ++ p1) ++ RE ++ (p2 ++ RS ++ p3 ++ D1 ++ p4 ++ D2 ++ p5))
      = (p0 ++ RH ++ p1) ++ js_etf_returns ed ++ (p2 ++ RS ++ p3 ++ D1 ++ p4 ++ D2 ++ p5) :=
    reSub_single _ _ (posMatch_block _ (by decide)) _ _ _ S1
  have e2 : reSub (blockMatchAt openS) (js_holding_returns sd)
      ((p0 ++ RH ++ p1 ++ js_etf_returns ed ++ p2) ++ RS ++ (p3 ++ D1 ++ p4 ++ D2 ++ p5))
      = (p0 ++ RH ++ p1 ++ js_etf_returns ed ++ p2) ++ js_holding_returns sd
          ++ (p3 ++ D1 ++ p4 ++ D2 ++ p5) :=
    reSub_single _ _ (posMatch_block _ (by decide)) _ _ _ S2
  have e3 : reSub (dateMatchAt litD1 false) (litD1 ++ dateStr)
      ((p0 ++ RH ++ p1 ++ js_etf_returns ed ++ p2 ++ js_holding_returns sd ++ p3) ++ D1
        ++ (p4 ++ D2 ++ p5))
      = (p0 ++ RH ++ p1 ++ js_etf_returns ed ++ p2 ++ js_holding_returns sd ++ p3)
          ++ (litD1 ++ dateStr) ++ (p4 ++ D2 ++ p5) :=
    reSub_single _ _ (posMatch_date _ _) _ _ _ S3
  have e4 : reSub (dateMatchAt litD2 true) (litD2 ++ dateStr ++ tx ".")
      ((p0 ++ RH ++ p1 ++ js_etf_returns ed ++ p2 ++ js_holding_returns sd ++ p3
        ++ (litD1 ++ dateStr) ++ p4) ++ D2 ++ p5)
      = (p0 ++ RH ++ p1 ++ js_etf_returns ed ++ p2 ++ js_holding_returns sd ++ p3
          ++ (litD1 ++ dateStr) ++ p4) ++ (litD2 ++ dateStr ++ tx ".") ++ p5 :=
    reSub_single _ _ (posMatch_date _ _) _ _ _ S4
  have hpatch : patch_html (p0 ++ RH ++ p1 ++ RE ++ p2 ++ RS ++ p3 ++ D1 ++ p4 ++ D2 ++ p5)
      hOpt (some ed) (some sd) dateStr
      = reSub (dateMatchAt litD2 true) (litD2 ++ dateStr ++ tx ".")
          (reSub (dateMatchAt litD1 false) (litD1 ++ dateStr)
            (reSub (blockMatchAt openS) (js_holding_returns sd)
              (reSub (blockMatchAt openE) (js_etf_returns ed)
                (p0 ++ RH ++ p1 ++ RE ++ p2 ++ RS ++ p3 ++ D1 ++ p4 ++ D2 ++ p5)))) := by
    rcases hH with rfl | ⟨d, rfl, hd⟩
    · simp only [patch_html, hed, hsd, Bool.false_eq_true, if_false]
    · simp only [patch_html, hd, if_true, hed, hsd, Bool.false_eq_true, if_false]
  rw [hpatch]
  rw [show p0 ++ RH ++ p1 ++ RE ++ p2 ++ RS ++ p3 ++ D1 ++ p4 ++ D2 ++ p5
      = (p0 ++ RH ++ p1) ++ RE ++ (p2 ++ RS ++ p3 ++ D1 ++ p4 ++ D2 ++ p5) by
    simp [List.append_assoc]]
  rw [e1]
  rw [show (p0 ++ RH ++ p1) ++ js_etf_returns ed ++ (p2 ++ RS ++ p3 ++ D1 ++ p4 ++ D2 ++ p5)
      = (p0 ++ RH ++ p1 ++ js_etf_returns ed ++ p2) ++ RS ++ (p3 ++ D1 ++ p4 ++ D2 ++ p5) by
    simp [List.append_assoc]]
  rw [e2]
  rw [show (p0 ++ RH ++ p1 ++ js_etf_returns ed ++ p2) ++ js_holding_returns sd
        ++ (p3 ++ D1 ++ p4 ++ D2 ++ p5)
      = (p0 ++ RH ++ p1 ++ js_etf_returns ed ++ p2 ++ js_holding_returns sd ++ p3) ++ D1
        ++ (p4 ++ D2 ++ p5) by
    simp [List.append_assoc]]
  rw [e3]
  rw [show (p0 ++ RH ++ p1 ++ js_etf_returns ed ++ p2 ++ js_holding_returns sd ++ p3)
        ++ (litD1 ++ dateStr) ++ (p4 ++ D2 ++ p5)
      = (p0 ++ RH ++ p1 ++ js_etf_returns ed ++ p2 ++ js_holding_returns sd ++ p3
        ++ (litD1 ++ dateStr) ++ p4) ++ D2 ++ p5 by
    simp [List.append_assoc]]
  rw [e4]

/-- Witness for C5: a concrete well-formed document; the holdings block is
absent, ETF returns and stock returns are provided, dates rewritten — the
holdings region `const RAW_HOLDINGS = \x7bx\x7d;` survives byte-identically. -/
theorem patch_frame_noop_witness :
    patch_html (tx "A" ++ (openH ++ tx "x" ++ closeB) ++ tx "B" ++ (openE ++ tx "y" ++ closeB)
        ++ tx "C" ++ (openS ++ tx "z" ++ closeB) ++ tx "D"
        ++ tx "EMBEDDED DATA — compiled Jan 1, 2024" ++ tx "E"
        ++ tx "Data as of Jan 1, 2024." ++ tx "F")
        none (some [("XUTC", [])]) (some [("NVDA", [])]) (tx "Feb 2, 2025")
      = tx "A" ++ (openH ++ tx "x" ++ closeB) ++ tx "B" ++ js_etf_returns [("XUTC", [])]
          ++ tx "C" ++ js_holding_returns [("NVDA", [])] ++ tx "D"
          ++ (litD1 ++ tx "Feb 2, 2025") ++ tx "E"
          ++ (litD2 ++ tx "Feb 2, 2025" ++ tx ".") ++ tx "F" :=
  patch_frame_noop (tx "A") (openH ++ tx "x" ++ closeB) (tx "B") (openE ++ tx "y" ++ closeB)
    (tx "C") (openS ++ tx "z" ++ closeB) (tx "D") (tx "EMBEDDED DATA — compiled Jan 1, 2024")
    (tx "E") (tx "Data as of Jan 1, 2024.") (tx "F") none [("XUTC", [])] [("NVDA", [])]
    (tx "Feb 2, 2025") (Or.inl rfl) rfl rfl
    (subOk_of_scan _ _ _ _ (by decide) (by decide) (by decide) (by decide))
    (subOk_of_scan _ _ _ _ (by decide) (by decide) (by decide) (by decide))
    (subOk_of_scan _ _ _ _ (by decide) (by decide) (by decide) (by decide))
    (subOk_of_scan _ _ _ _ (by decide) (by decide) (by decide) (by decide))

/-- One full patch pass over a well-formed document with all three blocks
provided: every region is replaced by its serialization and both date
annotations are rewritten. -/
theorem patch_chain
    (p0 RH p1 RE p2 RS p3 D1 p4 D2 p5 : Text)
    (hd : List (String × List Holding)) (ed : List (String × RetDict))
    (sd : List (String × List (String × Option ℚ))) (dateStr : Text)
    (hhd : hd.isEmpty = false) (hed : ed.isEmpty = false) (hsd : sd.isEmpty = false)
    (S1 : SubOk (blockMatchAt openH) p0 RH
      (p1 ++ RE ++ p2 ++ RS ++ p3 ++ D1 ++ p4 ++ D2 ++ p5))
    (S2 : SubOk (blockMatchAt openE) (p0 ++ js_holdings hd ++ p1) RE
      (p2 ++ RS ++ p3 ++ D1 ++ p4 ++ D2 ++ p5))
    (S3 : SubOk (blockMatchAt openS)
      (p0 ++ js_holdings hd ++ p1 ++ js_etf_returns ed ++ p2) RS
      (p3 ++ D1 ++ p4 ++ D2 ++ p5))
    (S4 : SubOk (dateMatchAt litD1 false)
      (p0 ++ js_holdings hd ++ p1 ++ js_etf_returns ed ++ p2 ++ js_holding_returns sd ++ p3)
      D1 (p4 ++ D2 ++ p5))
    (S5 : SubOk (dateMatchAt litD2 true)
      (p0 ++ js_holdings hd ++ p1 ++ js_etf_returns ed ++ p2 ++ js_holding_returns sd ++ p3
        ++ (litD1 ++ dateStr) ++ p4) D2 p5) :
    patch_html (p0 ++ RH ++ p1 ++ RE ++ p2 ++ RS ++ p3 ++ D1 ++ p4 ++ D2 ++ p5)
        (some hd) (some ed) (some sd) dateStr
      = p0 ++ js_holdings hd ++ p1 ++ js_etf_returns ed ++ p2 ++ js_holding_returns sd ++ p3
          ++ (litD1 ++ dateStr) ++ p4 ++ (litD2 ++ dateStr ++ tx ".") ++ p5 := by
  have e0 : reSub (blockMatchAt openH) (js_holdings hd)
      (p0 ++ RH ++ (p1 ++ RE ++ p2 ++ RS ++ p3 ++ D1 ++ p4 ++ D2 ++ p5))
      = p0 ++ js_holdings hd ++ (p1 ++ RE ++ p2 ++ RS ++ p3 ++ D1 ++ p4 ++ D2 ++ p5) :=
    reSub_single _ _ (posMatch_block _ (by decide)) _ _ _ S1
  have e1 : reSub (blockMatchAt openE) (js_etf_returns ed)
      ((p0 ++ js_holdings hd ++ p1) ++ RE ++ (p2 ++ RS ++ p3 ++ D1 ++ p4 ++ D2 ++ p5))
      = (p0 ++ js_holdings hd ++ p1) ++ js_etf_returns ed
          ++ (p2 ++ RS ++ p3 ++ D1 ++ p4 ++ D2 ++ p5) :=
    reSub_single _ _ (posMatch_block _ (by decide)) _ _ _ S2
  have e2 : reSub (blockMatchAt openS) (js_holding_returns sd)
      ((p0 ++ js_holdings hd ++ p1 ++ js_etf_returns ed ++ p2) ++ RS
        ++ (p3 ++ D1 ++ p4 ++ D2 ++ p5))
      = (p0 ++ js_holdings hd ++ p1 ++ js_etf_returns ed ++ p2) ++ js_holding_returns sd
          ++ (p3 ++ D1 ++ p4 ++ D2 ++ p5) :=
    reSub_single _ _ (posMatch_block _ (by decide)) _ _ _ S3
  have e3 : reSub (dateMatchAt litD1 false) (litD1 ++ dateStr)
      ((p0 ++ js_holdings hd ++ p1 ++ js_etf_returns ed ++ p2 ++ js_holding_returns sd ++ p3)
        ++ D1 ++ (p4 ++ D2 ++ p5))
      = (p0 ++ js_holdings hd ++ p1 ++ js_etf_returns ed ++ p2 ++ js_holding_returns sd ++ p3)
          ++ (litD1 ++ dateStr) ++ (p4 ++ D2 ++ p5) :=
    reSub_single _ _ (posMatch_date _ _) _ _ _ S4
  have e4 : reSub (dateMatchAt litD2 true) (litD2 ++ dateStr ++ tx ".")
      ((p0 ++ js_holdings hd ++ p1 ++ js_etf_returns ed ++ p2 ++ js_holding_returns sd ++ p3
        ++ (litD1 ++ dateStr) ++ p4) ++ D2 ++ p5)
      = (p0 ++ js_holdings hd ++ p1 ++ js_etf_returns ed ++ p2 ++ js_holding_returns sd ++ p3
          ++ (litD1 ++ dateStr) ++ p4) ++ (litD2 ++ dateStr ++ tx ".") ++ p5 :=
    reSub_single _ _ (posMatch_date _ _) _ _ _ S5
  have hpatch : patch_html (p0 ++ RH ++ p1 ++ RE ++ p2 ++ RS ++ p3 ++ D1 ++ p4 ++ D2 ++ p5)
      (some hd) (some ed) (some sd) dateStr
      = reSub (dateMatchAt litD2 true) (litD2 ++ dateStr ++ tx ".")
          (reSub (dateMatchAt litD1 false) (litD1 ++ dateStr)
            (reSub (blockMatchAt openS) (js_holding_returns sd)
              (reSub (blockMatchAt openE) (js_etf_returns ed)
                (reSub (blockMatchAt openH) (js_holdings hd)
                  (p0 ++ RH ++ p1 ++ RE ++ p2 ++ RS ++ p3 ++ D1 ++ p4 ++ D2 ++ p5))))) := by
    simp only [patch_html, hhd, hed, hsd, Bool.false_eq_true, if_false]
  rw [hpatch]
  rw [show p0 ++ RH ++ p1 ++ RE ++ p2 ++ RS ++ p3 ++ D1 ++ p4 ++ D2 ++ p5
      = p0 ++ RH ++ (p1 ++ RE ++ p2 ++ RS ++ p3 ++ D1 ++ p4 ++ D2 ++ p5) by
    simp [List.append_assoc]]
  rw [e0]
  rw [show p0 ++ js_holdings hd ++ (p1 ++ RE ++ p2 ++ RS ++ p3 ++ D1 ++ p4 ++ D2 ++ p5)
      = (p0 ++ js_holdings hd ++ p1) ++ RE ++ (p2 ++ RS ++ p3 ++ D1 ++ p4 ++ D2 ++ p5) by
    simp [List.append_assoc]]
  rw [e1]
  rw [show (p0 ++ js_holdings hd ++ p1) ++ js_etf_returns ed
        ++ (p2 ++ RS ++ p3 ++ D1 ++ p4 ++ D2 ++ p5)
      = (p0 ++ js_holdings hd ++ p1 ++ js_etf_returns ed ++ p2) ++ RS
        ++ (p3 ++ D1 ++ p4 ++ D2 ++ p5) by
    simp [List.append_assoc]]
  rw [e2]
  rw [show (p0 ++ js_holdings hd ++ p1 ++ js_etf_returns ed ++ p2) ++ js_holding_returns sd
        ++ (p3 ++ D1 ++ p4 ++ D2 ++ p5)
      = (p0 ++ js_holdings hd ++ p1 ++ js_etf_returns ed ++ p2 ++ js_holding_returns sd ++ p3)
        ++ D1 ++ (p4 ++ D2 ++ p5) by
    simp [List.append_assoc]]
  rw [e3]
  rw [show (p0 ++ js_holdings hd ++ p1 ++ js_etf_returns ed ++ p2 ++ js_holding_returns sd
        ++ p3) ++ (litD1 ++ dateStr) ++ (p4 ++ D2 ++ p5)
      = (p0 ++ js_holdings hd ++ p1 ++ js_etf_returns ed ++ p2 ++ js_holding_returns sd ++ p3
        ++ (litD1 ++ dateStr) ++ p4) ++ D2 ++ p5 by
    simp [List.append_assoc]]
  rw [e4]

/--
**C4 counterexample.** The claim asserts idempotence for all field values,
"including ticker and name strings containing arbitrary characters".  With a
holding name containing the closing-marker text `"\x7d;"`, the first patch
plants that marker inside the rewritten region; the second patch's lazy scan
stops at it, truncating the region and leaving the block's tail duplicated —
the two results differ (the document here contains no date annotations, so
the difference is not in the date text).
-/
theorem patch_idempotence_counterexample :
    patch_html (patch_html (tx "A const RAW_HOLDINGS = \x7bx\x7d; B")
        (some [("XUTC", [⟨tx "T", tx "\x7d;", 1⟩])]) none none (tx "Feb 2, 2025"))
        (some [("XUTC", [⟨tx "T", tx "\x7d;", 1⟩])]) none none (tx "Feb 2, 2025")
      ≠ patch_html (tx "A const RAW_HOLDINGS = \x7bx\x7d; B")
          (some [("XUTC", [⟨tx "T", tx "\x7d;", 1⟩])]) none none (tx "Feb 2, 2025") := by
  decide

/--
**C4 (amended).** For a document of the spec's shape and snapshots whose
serialized blocks and date string are well-behaved — each pattern matches
exactly at its own region both before and after the first pass (the `SubOk`
hypotheses; in particular no serialized value contains an opening marker, the
closing-marker text `"\x7d;"`, or a backslash followed by an ASCII letter, and
the date string has the standard "Mon D, YYYY" shape) — running the patcher
twice with identical input data yields the same document as running it once.
-/
theorem patch_idempotent_amended
    (p0 RH p1 RE p2 RS p3 D1 p4 D2 p5 : Text)
    (hd : List (String × List Holding)) (ed : List (String × RetDict))
    (sd : List (String × List (String × Option ℚ))) (dateStr : Text)
    (hhd : hd.isEmpty = false) (hed : ed.isEmpty = false) (hsd : sd.isEmpty = false)
    (S1 : SubOk (blockMatchAt openH) p0 RH
      (p1 ++ RE ++ p2 ++ RS ++ p3 ++ D1 ++ p4 ++ D2 ++ p5))
    (S2 : SubOk (blockMatchAt openE) (p0 ++ js_holdings hd ++ p1) RE
      (p2 ++ RS ++ p3 ++ D1 ++ p4 ++ D2 ++ p5))
    (S3 : SubOk (blockMatchAt openS)
      (p0 ++ js_holdings hd ++ p1 ++ js_etf_returns ed ++ p2) RS
      (p3 ++ D1 ++ p4 ++ D2 ++ p5))
    (S4 : SubOk (dateMatchAt litD1 false)
      (p0 ++ js_holdings hd ++ p1 ++ js_etf_returns ed ++ p2 ++ js_holding_returns sd ++ p3)
      D1 (p4 ++ D2 ++ p5))
    (S5 : SubOk (dateMatchAt litD2 true)
      (p0 ++ js_holdings hd ++ p1 ++ js_etf_returns ed ++ p2 ++ js_holding_returns sd ++ p3
        ++ (litD1 ++ dateStr) ++ p4) D2 p5)
    (T1 : SubOk (blockMatchAt openH) p0 (js_holdings hd)
      (p1 ++ js_etf_returns ed ++ p2 ++ js_holding_returns sd ++ p3 ++ (litD1 ++ dateStr)
        ++ p4 ++ (litD2 ++ dateStr ++ tx ".") ++ p5))
    (T2 : SubOk (blockMatchAt openE) (p0 ++ js_holdings hd ++ p1) (js_etf_returns ed)
      (p2 ++ js_holding_returns sd ++ p3 ++ (litD1 ++ dateStr) ++ p4
        ++ (litD2 ++ dateStr ++ tx ".") ++ p5))
    (T3 : SubOk (blockMatchAt openS)
      (p0 ++ js_holdings hd ++ p1 ++ js_etf_returns ed ++ p2) (js_holding_returns sd)
      (p3 ++ (litD1 ++ dateStr) ++ p4 ++ (litD2 ++ dateStr ++ tx ".") ++ p5))
    (T4 : SubOk (dateMatchAt litD1 false)
      (p0 ++ js_holdings hd ++ p1 ++ js_etf_returns ed ++ p2 ++ js_holding_returns sd ++ p3)
      (litD1 ++ dateStr) (p4 ++ (litD2 ++ dateStr ++ tx ".") ++ p5))
    (T5 : SubOk (dateMatchAt litD2 true)
      (p0 ++ js_holdings hd ++ p1 ++ js_etf_returns ed ++ p2 ++ js_holding_returns sd ++ p3
        ++ (litD1 ++ dateStr) ++ p4) (litD2 ++ dateStr ++ tx ".") p5) :
    patch_html
        (patch_html (p0 ++ RH ++ p1 ++ RE ++ p2 ++ RS ++ p3 ++ D1 ++ p4 ++ D2 ++ p5)
          (some hd) (some ed) (some sd) dateStr)
        (some hd) (some ed) (some sd) dateStr
      = patch_html (p0 ++ RH ++ p1 ++ RE ++ p2 ++ RS ++ p3 ++ D1 ++ p4 ++ D2 ++ p5)
          (some hd) (some ed) (some sd) dateStr := by
  rw [patch_chain p0 RH p1 RE p2 RS p3 D1 p4 D2 p5 hd ed sd dateStr hhd hed hsd S1 S2 S3 S4 S5]
  exact patch_chain p0 (js_holdings hd) p1 (js_etf_returns ed) p2 (js_holding_returns sd) p3
    (litD1 ++ dateStr) p4 (litD2 ++ dateStr ++ tx ".") p5 hd ed sd dateStr hhd hed hsd
    T1 T2 T3 T4 T5

theorem patch_idempotent_amended_witness :
    patch_html
        (patch_html (tx "A" ++ (openH ++ tx "x" ++ closeB) ++ tx "B"
            ++ (openE ++ tx "y" ++ closeB) ++ tx "C" ++ (openS ++ tx "z" ++ closeB) ++ tx "D"
            ++ tx "EMBEDDED DATA — compiled Jan 1, 2024" ++ tx "E"
            ++ tx "Data as of Jan 1, 2024." ++ tx "F")
          (some [("XUTC", [])]) (some [("XUTC", [])]) (some [("NVDA", [])]) (tx "Feb 2, 2025"))
        (some [("XUTC", [])]) (some [("XUTC", [])]) (some [("NVDA", [])]) (tx "Feb 2, 2025")
      = patch_html (tx "A" ++ (openH ++ tx "x" ++ closeB) ++ tx "B"
            ++ (openE ++ tx "y" ++ closeB) ++ tx "C" ++ (openS ++ tx "z" ++ closeB) ++ tx "D"
            ++ tx "EMBEDDED DATA — compiled Jan 1, 2024" ++ tx "E"
            ++ tx "Data as of Jan 1, 2024." ++ tx "F")
          (some [("XUTC", [])]) (some [("XUTC", [])]) (some [("NVDA", [])])
          (tx "Feb 2, 2025") :=
  patch_idempotent_amended (tx "A") (openH ++ tx "x" ++ closeB) (tx "B")
    (openE ++ tx "y" ++ closeB) (tx "C") (openS ++ tx "z" ++ closeB) (tx "D")
    (tx "EMBEDDED DATA — compiled Jan 1, 2024") (tx "E") (tx "Data as of Jan 1, 2024.")
    (tx "F") [("XUTC", [])] [("XUTC", [])] [("NVDA", [])] (tx "Feb 2, 2025")
    rfl rfl rfl
    (subOk_of_scan _ _ _ _ (by decide) (by decide) (by decide) (by decide))
    (subOk_of_scan _ _ _ _ (by decide) (by decide) (by decide) (by decide))
    (subOk_of_scan _ _ _ _ (by decide) (by decide) (by decide) (by decide))
    (subOk_of_scan _ _ _ _ (by decide) (by decide) (by decide) (by decide))
    (subOk_of_scan _ _ _ _ (by decide) (by decide) (by decide) (by decide))
    (subOk_of_scan _ _ _ _ (by decide) (by decide) (by decide) (by decide))
    (subOk_of_scan _ _ _ _ (by decide) (by decide) (by decide) (by decide))
    (subOk_of_scan _ _ _ _ (by decide) (by decide) (by decide) (by decide))
    (subOk_of_scan _ _ _ _ (by decide) (by decide) (by decide) (by decide))
    (subOk_of_scan _ _ _ _ (by decide) (by decide) (by decide) (by decide))

end UpdateEtf
